import Mathlib

/-!
Verification development for the `textual-window` repository.

The definitions below are a shallow embedding of the tiling layout engine
(`src/textual_window/tiling.py`) and of the tiling/registration bookkeeping of
the window manager (`src/textual_window/manager.py`).  Python `int` arithmetic
is modelled by `Int` (no overflow in CPython), Python floor division `//` by
`Int.fdiv` (floor division for every sign, which is exactly Python's rule),
Python `dict` objects by insertion-ordered association lists whose update
operation replaces an existing key in place, and `raise ValueError` by an
`Except`/`Option` error result that leaves the state unchanged (an exception
aborts the Python function before any later mutation).
-/

namespace TextualWindow

/-- `textual.geometry.Offset`: an integer x/y pair. -/
structure Offset where
  x : Int
  y : Int
deriving DecidableEq, Repr

/-- `textual.geometry.Size`: an integer width/height pair. -/
structure Size where
  width : Int
  height : Int
deriving DecidableEq, Repr

/-- `TilingLayout` enum from `tiling.py` (lines 29-45). -/
inductive TilingLayout where
  | floating
  | horizontal_split
  | vertical_split
  | grid
  | master_detail
deriving DecidableEq, Repr

/-- The distinct `ValueError` conditions raised by
`calculate_tiling_positions`; the Python code raises `ValueError` with a
message string, modelled here as an error code.
`gapTooLarge` stands for the pre-validation block (lines 100-139),
`tooCramped` for the per-branch minimum-size checks (lines 154, 177, 204,
241, 243). -/
inductive LayoutError where
  | invalidContainer
  | invalidGap
  | gapTooLarge
  | tooCramped
  | unsupportedLayout
deriving DecidableEq, Repr

/-- The fields of a `Window` widget that the tiling engine and the manager
read or write: `id`, `open_state`, `offset`, `styles.width`/`styles.height`
(collapsed to plain integers) and `starting_width`/`starting_height`. -/
structure Window where
  wid : String
  open_state : Bool
  offset : Offset
  width : Int
  height : Int
  starting_width : Int
  starting_height : Int
deriving DecidableEq, Repr

/-- Python dict assignment `d[k] = v`: replace the value of an existing key
in place, otherwise append the new key at the end (dicts preserve insertion
order). -/
def dinsert {α : Type} : List (String × α) → String → α → List (String × α)
  | [], k, v => [(k, v)]
  | (k', v') :: rest, k, v =>
      if k' = k then (k, v) :: rest else (k', v') :: dinsert rest k v

/-- Python dict `d.pop(k)`: drop the (unique) entry with key `k`. -/
def dremove {α : Type} : List (String × α) → String → List (String × α)
  | [], _ => []
  | (k', v') :: rest, k =>
      if k' = k then rest else (k', v') :: dremove rest k

/-- Mutating the attributes of the window object stored under key `k`
(Python mutates the object held by the dict, so the entry's value changes in
place). -/
def updateWindow (m : List (String × Window)) (k : String) (f : Window → Window) :
    List (String × Window) :=
  m.map (fun kv => if kv.1 = k then (kv.1, f kv.2) else kv)

/-- The position/size mapping returned by the calculator
(`Dict[str, Tuple[Offset, Size]]`). -/
abbrev PosMap := List (String × (Offset × Size))

/-- The loop `for i, window in enumerate(windows): result[window.id] = f(i)`
starting from dict `acc` and index `i0`. -/
def dfoldIdx (f : Nat → Offset × Size) : List Window → Nat → PosMap → PosMap
  | [], _, acc => acc
  | w :: rest, i, acc => dfoldIdx f rest (i + 1) (dinsert acc w.wid (f i))

/-- `min_window_width = 12` (tiling.py line 96). -/
def min_window_width : Int := 12

/-- `min_window_height = 6` (tiling.py line 97). -/
def min_window_height : Int := 6

/-- `math.ceil(math.sqrt(n))`: the least `k` with `n ≤ k * k`.  For the
window counts that can occur the floating-point square root is exact enough
that Python computes the same value. -/
def ceilSqrt (n : Nat) : Nat :=
  (((List.range (n + 1)).find? (fun k => n ≤ k * k)).getD n)

/-- `cols = math.ceil(math.sqrt(window_count))` (tiling.py line 117/190). -/
def gridCols (n : Nat) : Nat := ceilSqrt n

/-- `rows = math.ceil(window_count / cols)` (tiling.py line 118/191);
with `cols ≥ 1` the float ceiling equals `(n + cols - 1) / cols`. -/
def gridRows (n : Nat) : Nat := (n + gridCols n - 1) / gridCols n

/-- Python `int(total_width * 0.6)` (tiling.py lines 134, 231): a double
multiplication followed by truncation toward zero.  For every `|tw| < 2 ^ 53`
the double product `tw * 0.6` truncates to the same integer as the exact
rational `tw * 3 / 5`, so the expression is modelled arithmetically. -/
def intTrunc06 (tw : Int) : Int :=
  if 0 ≤ tw then 3 * tw / 5 else -(3 * (-tw) / 5)

/-- Pre-validation block of `calculate_tiling_positions`
(tiling.py lines 100-139): per-layout check that the gaps leave enough room,
performed before any branch computes window rectangles. -/
def preValidate (windows : List Window) (layout : TilingLayout) (cs : Size)
    (gap : Int) : Option LayoutError :=
  let window_count : Int := windows.length
  let vertical_gap := gap
  let horizontal_gap := gap * 2
  match layout with
  | .horizontal_split =>
    let total_gap_space := 2 * horizontal_gap + horizontal_gap * (window_count - 1)
    let available_width := cs.width - total_gap_space
    let available_height := cs.height - 2 * vertical_gap
    let min_required_width := window_count * min_window_width
    if available_width < min_required_width ∨ available_height < min_window_height then
      some .gapTooLarge
    else none
  | .vertical_split =>
    let total_gap_space := 2 * vertical_gap + vertical_gap * (window_count - 1)
    let available_height := cs.height - total_gap_space
    let available_width := cs.width - 2 * horizontal_gap
    let min_required_height := window_count * min_window_height
    if available_height < min_required_height ∨ available_width < min_window_width then
      some .gapTooLarge
    else none
  | .grid =>
    let cols : Int := gridCols windows.length
    let rows : Int := gridRows windows.length
    let total_horizontal_gap_space := 2 * horizontal_gap + horizontal_gap * (cols - 1)
    let total_vertical_gap_space := 2 * vertical_gap + vertical_gap * (rows - 1)
    let available_width := cs.width - total_horizontal_gap_space
    let available_height := cs.height - total_vertical_gap_space
    let min_required_width := cols * min_window_width
    let min_required_height := rows * min_window_height
    if available_width < min_required_width ∨ available_height < min_required_height then
      some .gapTooLarge
    else none
  | .master_detail =>
    if window_count > 1 then
      let detail_count := window_count - 1
      let total_detail_gap_space := 2 * vertical_gap + vertical_gap * (detail_count - 1)
      let available_detail_height := cs.height - total_detail_gap_space
      let min_required_detail_height := detail_count * min_window_height
      let total_width := cs.width - 2 * horizontal_gap
      let master_width := intTrunc06 total_width
      let detail_width := total_width - master_width - horizontal_gap
      if available_detail_height < min_required_detail_height then some .gapTooLarge
      else if detail_width < min_window_width ∨ master_width < min_window_width then
        some .gapTooLarge
      else none
    else none
  | .floating => none

/-- `TilingLayout.HORIZONTAL_SPLIT` branch (tiling.py lines 141-162). -/
def hsplit (windows : List Window) (cs : Size) (gap : Int) :
    Except LayoutError PosMap :=
  let window_count : Int := windows.length
  let vertical_gap := gap
  let horizontal_gap := gap * 2
  let total_gap_space := 2 * horizontal_gap + horizontal_gap * (window_count - 1)
  let available_width := cs.width - total_gap_space
  let window_width := available_width.fdiv window_count
  let available_height := cs.height - 2 * vertical_gap
  let window_height := available_height
  if window_width < min_window_width ∨ window_height < min_window_height then
    .error .tooCramped
  else
    .ok (dfoldIdx (fun i =>
      (⟨horizontal_gap + (i : Int) * (window_width + horizontal_gap), vertical_gap⟩,
       ⟨window_width, window_height⟩)) windows 0 [])

/-- `TilingLayout.VERTICAL_SPLIT` branch (tiling.py lines 164-185). -/
def vsplit (windows : List Window) (cs : Size) (gap : Int) :
    Except LayoutError PosMap :=
  let window_count : Int := windows.length
  let vertical_gap := gap
  let horizontal_gap := gap * 2
  let total_gap_space := 2 * vertical_gap + vertical_gap * (window_count - 1)
  let available_height := cs.height - total_gap_space
  let window_height := available_height.fdiv window_count
  let available_width := cs.width - 2 * horizontal_gap
  let window_width := available_width
  if window_width < min_window_width ∨ window_height < min_window_height then
    .error .tooCramped
  else
    .ok (dfoldIdx (fun i =>
      (⟨horizontal_gap, vertical_gap + (i : Int) * (window_height + vertical_gap)⟩,
       ⟨window_width, window_height⟩)) windows 0 [])

/-- `TilingLayout.GRID` branch (tiling.py lines 187-214). -/
def gridLayout (windows : List Window) (cs : Size) (gap : Int) :
    Except LayoutError PosMap :=
  let cols := gridCols windows.length
  let rows := gridRows windows.length
  let vertical_gap := gap
  let horizontal_gap := gap * 2
  let total_horizontal_gap_space := 2 * horizontal_gap + horizontal_gap * ((cols : Int) - 1)
  let total_vertical_gap_space := 2 * vertical_gap + vertical_gap * ((rows : Int) - 1)
  let available_width := cs.width - total_horizontal_gap_space
  let available_height := cs.height - total_vertical_gap_space
  let window_width := available_width.fdiv (cols : Int)
  let window_height := available_height.fdiv (rows : Int)
  if window_width < min_window_width ∨ window_height < min_window_height then
    .error .tooCramped
  else
    .ok (dfoldIdx (fun i =>
      (⟨horizontal_gap + ((i % cols : Nat) : Int) * (window_width + horizontal_gap),
        vertical_gap + ((i / cols : Nat) : Int) * (window_height + vertical_gap)⟩,
       ⟨window_width, window_height⟩)) windows 0 [])

/-- `TilingLayout.MASTER_DETAIL` branch (tiling.py lines 216-257). -/
def masterDetail (windows : List Window) (cs : Size) (gap : Int) :
    Except LayoutError PosMap :=
  let window_count : Int := windows.length
  let vertical_gap := gap
  let horizontal_gap := gap * 2
  match windows with
  | [] => .ok []
  | w0 :: rest =>
    if window_count = 1 then
      .ok [(w0.wid, (⟨horizontal_gap, vertical_gap⟩,
                     ⟨cs.width - 2 * horizontal_gap, cs.height - 2 * vertical_gap⟩))]
    else
      let total_width := cs.width - 2 * horizontal_gap
      let master_width := intTrunc06 total_width
      let detail_width := total_width - master_width - horizontal_gap
      let detail_count := window_count - 1
      let total_detail_gap_space := 2 * vertical_gap + vertical_gap * (detail_count - 1)
      let available_detail_height := cs.height - total_detail_gap_space
      let detail_height := available_detail_height.fdiv detail_count
      if master_width < min_window_width ∨ detail_width < min_window_width then
        .error .tooCramped
      else if detail_height < min_window_height then
        .error .tooCramped
      else
        .ok (dfoldIdx (fun j =>
          (⟨horizontal_gap + master_width + horizontal_gap,
            vertical_gap + (j : Int) * (detail_height + vertical_gap)⟩,
           ⟨detail_width, detail_height⟩)) rest 0
          (dinsert [] w0.wid
            (⟨horizontal_gap, vertical_gap⟩,
             ⟨master_width, cs.height - 2 * vertical_gap⟩)))

/-- `calculate_tiling_positions` (tiling.py lines 48-262): edge cases, input
validation, per-layout pre-validation, then the layout dispatch.  The final
`else: raise ValueError("Unsupported tiling layout")` corresponds to the
`.floating` arm of the dispatch, unreachable because floating mode returned
earlier. -/
def calculate_tiling_positions (windows : List Window) (layout : TilingLayout)
    (container_size : Size) (gap : Int) : Except LayoutError PosMap :=
  if windows = [] then .ok []
  else if layout = .floating then .ok []
  else if container_size.width ≤ 0 ∨ container_size.height ≤ 0 then
    .error .invalidContainer
  else if gap < 0 then .error .invalidGap
  else
    match preValidate windows layout container_size gap with
    | some e => .error e
    | none =>
      match layout with
      | .horizontal_split => hsplit windows container_size gap
      | .vertical_split => vsplit windows container_size gap
      | .grid => gridLayout windows container_size gap
      | .master_detail => masterDetail windows container_size gap
      | .floating => .error .unsupportedLayout

/-- Decidable equality for `Except`, used to evaluate the model on concrete
inputs. -/
instance instDecEqExcept {ε α : Type} [DecidableEq ε] [DecidableEq α] :
    DecidableEq (Except ε α)
  | .error e, .error f =>
      if h : e = f then .isTrue (h ▸ rfl) else .isFalse (fun c => h (Except.error.inj c))
  | .error _, .ok _ => .isFalse (fun c => Except.noConfusion c)
  | .ok _, .error _ => .isFalse (fun c => Except.noConfusion c)
  | .ok a, .ok b =>
      if h : a = b then .isTrue (h ▸ rfl) else .isFalse (fun c => h (Except.ok.inj c))

/-- The `ValueError` conditions raised by the manager's tiling methods
(`manager.py`): floating-mode queries, calculator failures re-raised by the
queries, a window id missing from the computed mapping, a negative gap, and a
gap rejected by the dry run of `set_window_gap`. -/
inductive MgrError where
  | notTiling
  | tilingCalcFailed (e : LayoutError)
  | windowNotFound
  | negativeGap
  | gapTooLargeForLayout (e : LayoutError)
deriving DecidableEq, Repr

/-- The manager state read and written by the tiling methods of
`WindowManager`: the `_windows` dict (insertion-ordered `id -> Window`), the
`_window_order` list, the current `tiling_layout` and `window_gap`, and the
id of `_last_focused_window`.  `container_size` and `container_offset` stand
for the external inputs `calculate_available_screen_space(app)` and
`calculate_window_container_offset(app)`. -/
structure ManagerState where
  windows : List (String × Window)
  window_order : List String
  tiling_layout : TilingLayout
  window_gap : Int
  last_focused : Option String
  container_size : Size
  container_offset : Offset
deriving DecidableEq, Repr

/-- The loop `for window_id in self._window_order: if window_id in
self._windows and self._windows[window_id].open_state:
open_windows.append(...)` (manager.py lines 479-482 and equivalents). -/
def openWindowsInOrder (s : ManagerState) : List Window :=
  s.window_order.filterMap (fun wid =>
    match List.lookup wid s.windows with
    | some w => if w.open_state then some w else none
    | none => none)

/-- `open_windows = [w for w in self._windows.values() if w.open_state]`
(manager.py lines 403, 445, 831): dict-value order, not tiling order. -/
def openWindowsByInsertion (s : ManagerState) : List Window :=
  (s.windows.map Prod.snd).filter (fun w => w.open_state)

/-- Applying one computed `(position, size)` pair to a window
(manager.py lines 505-515): set `styles.width`/`styles.height`, set `offset`
to the position shifted by the container offset, and record
`starting_width`/`starting_height`. -/
def applyWindowGeometry (off : Offset) (p : Offset × Size) (w : Window) : Window :=
  { w with
    width := p.2.width
    height := p.2.height
    offset := ⟨p.1.x + off.x, p.1.y + off.y⟩
    starting_width := p.2.width
    starting_height := p.2.height }

/-- The apply loop shared by `_retile_all_windows` and
`_retile_windows_with_order` (manager.py lines 500-515, 552-567): for each
window of the list, if its id is in the computed mapping, mutate that
window's geometry. -/
def applyPositions (off : Offset) (positions : PosMap) (ows : List Window)
    (m : List (String × Window)) : List (String × Window) :=
  ows.foldl (fun acc w =>
    match List.lookup w.wid positions with
    | some p => updateWindow acc w.wid (applyWindowGeometry off p)
    | none => acc) m

/-- `_retile_all_windows` (manager.py lines 468-516). -/
def retileAllWindows (s : ManagerState) : ManagerState :=
  if s.tiling_layout = .floating then s
  else
    let open_windows := openWindowsInOrder s
    if open_windows = [] then s
    else
      match calculate_tiling_positions open_windows s.tiling_layout
          s.container_size s.window_gap with
      | .error _ => { s with tiling_layout := .floating }
      | .ok positions =>
          { s with windows :=
              applyPositions s.container_offset positions open_windows s.windows }

/-- `_retile_windows_with_order` (manager.py lines 517-567): rewrite
`_window_order` to the given sequence followed by the left-over ids, then
recalculate and apply. -/
def retileWindowsWithOrder (s : ManagerState) (ordered : List Window) :
    ManagerState :=
  if s.tiling_layout = .floating then s
  else if ordered = [] then s
  else
    let new_order := ordered.map Window.wid ++
      s.window_order.filter (fun wid => !((ordered.map Window.wid).contains wid))
    let s1 := { s with window_order := new_order }
    match calculate_tiling_positions ordered s1.tiling_layout
        s1.container_size s1.window_gap with
    | .error _ => { s1 with tiling_layout := .floating }
    | .ok positions =>
        { s1 with windows :=
            applyPositions s1.container_offset positions ordered s1.windows }

/-- Python `list.insert(i, x)`: insert before position `i`, clamping to the
end when `i` exceeds the length. -/
def pyInsert {α : Type} : List α → Nat → α → List α
  | l, 0, x => x :: l
  | [], _ + 1, x => [x]
  | a :: l, n + 1, x => a :: pyInsert l n x

/-- `move_focused_window_next` (manager.py lines 704-732): no-op without a
last-focused window or in floating mode or with at most one open window;
otherwise pop the focused window at `current_index` and reinsert it at
`current_index % len(open_windows)` computed after the pop, then retile with
the resulting order.  An absent focused window (`list.index` raising
`ValueError`) is swallowed as a no-op. -/
def moveFocusedWindowNext (s : ManagerState) : ManagerState :=
  match s.last_focused with
  | none => s
  | some lf =>
    if s.tiling_layout = .floating then s
    else
      let open_windows := openWindowsInOrder s
      if open_windows.length ≤ 1 then s
      else
        let current_index := open_windows.findIdx (fun w => w.wid == lf)
        if h : current_index < open_windows.length then
          let window := open_windows.get ⟨current_index, h⟩
          let popped := open_windows.eraseIdx current_index
          let new_index := current_index % popped.length
          retileWindowsWithOrder s (pyInsert popped new_index window)
        else s

/-- `get_tiling_position` (manager.py lines 387-427).  Returns the result
together with the post-state: a calculator failure flips the stored layout to
floating before the error is re-raised. -/
def getTilingPosition (s : ManagerState) (window : Window) :
    Except MgrError Offset × ManagerState :=
  if s.tiling_layout = .floating then (.error .notTiling, s)
  else
    let open_windows := openWindowsByInsertion s
    if open_windows = [] then (.ok ⟨0, 0⟩, s)
    else
      match calculate_tiling_positions open_windows s.tiling_layout
          s.container_size s.window_gap with
      | .error e => (.error (.tilingCalcFailed e), { s with tiling_layout := .floating })
      | .ok positions =>
          match List.lookup window.wid positions with
          | none => (.error .windowNotFound, s)
          | some p =>
              (.ok ⟨p.1.x + s.container_offset.x, p.1.y + s.container_offset.y⟩, s)

/-- `set_window_gap` (manager.py lines 816-842): reject a negative gap; when
a tiling layout is active and open windows exist, dry-run the calculator with
the candidate gap and reject on failure; otherwise store the new gap.  A
rejection raises before the `self.window_gap = gap` assignment, so the state
is returned unchanged.  (The reactive `watch_window_gap` retile that the
assignment may trigger is framework machinery outside this function's body.) -/
def setWindowGap (s : ManagerState) (gap : Int) : Option MgrError × ManagerState :=
  if gap < 0 then (some .negativeGap, s)
  else if s.tiling_layout ≠ .floating ∧ s.windows ≠ [] then
    let open_windows := openWindowsByInsertion s
    if open_windows ≠ [] then
      match calculate_tiling_positions open_windows s.tiling_layout
          s.container_size gap with
      | .error e => (some (.gapTooLargeForLayout e), s)
      | .ok _ => (none, { s with window_gap := gap })
    else (none, { s with window_gap := gap })
  else (none, { s with window_gap := gap })

/-- A window as seen by the registration bookkeeping: Python compares the
widget objects themselves (identity) in `self._recent_focus_order`, so a
window is modelled as an object reference `ref` carrying its `id` string. -/
structure FWindow where
  ref : Nat
  wid : String
deriving DecidableEq, Repr

/-- The registry errors raised by `register_window`, `unregister_window` and
`change_window_focus_order`. -/
inductive RegError where
  | missingId
  | notRegistered
  | emptyFocusOrder
deriving DecidableEq, Repr

/-- The manager state touched by registration and focus tracking:
`_windows`, `_window_order`, `_recent_focus_order`, `_last_focused_window`,
and the `_closing_in_progress` flag consulted by
`change_window_focus_order`.  (The geometry retile that `unregister_window`
triggers in non-floating mode mutates only window positions, which this
bookkeeping model does not carry.) -/
structure RegState where
  windows : List (String × FWindow)
  window_order : List String
  recent_focus_order : List FWindow
  last_focused : Option FWindow
  closing_in_progress : Bool
deriving DecidableEq, Repr

/-- `register_window` (manager.py lines 240-256): a falsy id raises
`ValueError` before any mutation; otherwise store the window in `_windows`,
append its id to `_window_order` if not already present, and append the
window to `_recent_focus_order`. -/
def registerWindow (s : RegState) (w : FWindow) : Option RegError × RegState :=
  if w.wid ≠ "" then
    (none,
     { s with
       windows := dinsert s.windows w.wid w
       window_order :=
         if w.wid ∈ s.window_order then s.window_order
         else s.window_order ++ [w.wid]
       recent_focus_order := s.recent_focus_order ++ [w] })
  else (some .missingId, s)

/-- `unregister_window` (manager.py lines 258-292, registry part): an
unknown id raises `ValueError` before any mutation; otherwise pop the id from
`_windows`, remove it from `_window_order`, and remove the window object from
`_recent_focus_order` if present.  (Window-bar notification, the
closing-in-progress bookkeeping and the retile trigger touch no registration
state.) -/
def unregisterWindow (s : RegState) (w : FWindow) : Option RegError × RegState :=
  if (List.lookup w.wid s.windows).isSome then
    (none,
     { s with
       windows := dremove s.windows w.wid
       window_order := s.window_order.erase w.wid
       recent_focus_order := s.recent_focus_order.erase w })
  else (some .notRegistered, s)

/-- `change_window_focus_order` (manager.py lines 294-309): with a non-empty
focus list, move the window to the front (removing a previous occurrence);
with an empty list raise unless a close is in progress; finally record the
window as last focused (not reached on the raising path). -/
def changeWindowFocusOrder (s : RegState) (w : FWindow) : Option RegError × RegState :=
  if s.recent_focus_order ≠ [] then
    (none,
     { s with
       recent_focus_order := w :: s.recent_focus_order.erase w
       last_focused := some w })
  else if ¬ s.closing_in_progress then (some .emptyFocusOrder, s)
  else (none, { s with last_focused := some w })

/-- One registration-model operation. -/
inductive RegOp where
  | reg (w : FWindow)
  | unreg (w : FWindow)
  | focus (w : FWindow)
deriving DecidableEq, Repr

/-- Apply an operation, keeping the (unchanged) state when the operation
raises. -/
def applyRegOp (s : RegState) : RegOp → RegState
  | .reg w => (registerWindow s w).2
  | .unreg w => (unregisterWindow s w).2
  | .focus w => (changeWindowFocusOrder s w).2

/-- Apply a whole sequence of operations. -/
def applyRegSeq (s : RegState) : List RegOp → RegState
  | [] => s
  | op :: rest => applyRegSeq (applyRegOp s op) rest

/-- Well-formed use of an operation: registering only windows whose id is
nonempty and not yet taken, unregistering only the window object actually
registered under its id, and focusing only registered windows — the usage
discipline the widget lifecycle guarantees (each window registers once on
mount with a fresh id, unregisters on unmount, and only mounted windows gain
focus). -/
def validRegOp (s : RegState) : RegOp → Prop
  | .reg w => w.wid ≠ "" ∧ List.lookup w.wid s.windows = none
  | .unreg w => List.lookup w.wid s.windows = some w
  | .focus w => w ∈ s.windows.map Prod.snd

instance instDecValidRegOp (s : RegState) (op : RegOp) : Decidable (validRegOp s op) := by
  cases op <;> (dsimp [validRegOp]; infer_instance)

/-- A sequence of operations each valid in the state it is applied to. -/
def ValidRegSeq : RegState → List RegOp → Prop
  | _, [] => True
  | s, op :: rest => validRegOp s op ∧ ValidRegSeq (applyRegOp s op) rest

instance instDecValidRegSeq : (ops : List RegOp) → (s : RegState) →
    Decidable (ValidRegSeq s ops)
  | [], _ => .isTrue trivial
  | op :: rest, s =>
      @instDecidableAnd _ _ (instDecValidRegOp s op)
        (instDecValidRegSeq rest (applyRegOp s op))

/-- The registry/focus invariant: the focus-recency list holds no duplicates
and exactly the windows currently registered, every registered window is
stored under its own id, and registry keys are unique (Python-dict fact). -/
def RegInv (s : RegState) : Prop :=
  s.recent_focus_order.Nodup ∧
  (∀ w ∈ s.recent_focus_order, w ∈ s.windows.map Prod.snd) ∧
  (∀ w ∈ s.windows.map Prod.snd, w ∈ s.recent_focus_order) ∧
  (∀ kv ∈ s.windows, (kv.2).wid = kv.1) ∧
  (s.windows.map Prod.fst).Nodup

instance instDecRegInv (s : RegState) : Decidable (RegInv s) := by
  dsimp [RegInv]; infer_instance

/-- The manager state at start-up: no windows, nothing focused. -/
def initRegState : RegState :=
  { windows := []
    window_order := []
    recent_focus_order := []
    last_focused := none
    closing_in_progress := false }

/-- A window value holding only an id and an open flag; geometry fields are
zeroed.  Used to build concrete states. -/
def sampleWindow (s : String) (b : Bool) : Window :=
  ⟨s, b, ⟨0, 0⟩, 0, 0, 0, 0⟩

/-- The entries produced by an index-driven placement loop over `ws`
starting at index `i` when no key collision occurs. -/
def entriesFrom (f : Nat → Offset × Size) : List Window → Nat → PosMap
  | [], _ => []
  | w :: rest, i => (w.wid, f i) :: entriesFrom f rest (i + 1)

/-! ### Dictionary lemmas -/

theorem mem_keys_dinsert {α : Type} (m : List (String × α)) (k k' : String) (v : α) :
    k' ∈ (dinsert m k v).map Prod.fst ↔ k' ∈ m.map Prod.fst ∨ k' = k := by
  induction m with
  | nil => simp [dinsert]
  | cons kv rest ih =>
    obtain ⟨k0, v0⟩ := kv
    by_cases h : k0 = k
    · subst h
      simp [dinsert]
      tauto
    · simp [dinsert, h, ih]
      tauto

theorem nodup_keys_dinsert {α : Type} (m : List (String × α)) (k : String) (v : α)
    (h : (m.map Prod.fst).Nodup) : ((dinsert m k v).map Prod.fst).Nodup := by
  induction m with
  | nil => simp [dinsert]
  | cons kv rest ih =>
    obtain ⟨k0, v0⟩ := kv
    simp only [List.map_cons, List.nodup_cons] at h
    by_cases hk : k0 = k
    · subst hk
      simpa [dinsert] using h
    · simp only [dinsert, if_neg hk, List.map_cons, List.nodup_cons]
      refine ⟨?_, ih h.2⟩
      rw [mem_keys_dinsert]
      push_neg
      exact ⟨h.1, hk⟩

theorem mem_dinsert {α : Type} (m : List (String × α)) (k : String) (v : α) :
    ∀ e ∈ dinsert m k v, e ∈ m ∨ e = (k, v) := by
  induction m with
  | nil => intro e he; simpa [dinsert] using he
  | cons kv rest ih =>
    obtain ⟨k0, v0⟩ := kv
    intro e he
    by_cases hk : k0 = k
    · rw [show dinsert ((k0, v0) :: rest) k v = (k, v) :: rest from by
        simp [dinsert, hk]] at he
      rcases List.mem_cons.mp he with h1 | h1
      · right; exact h1
      · left; exact List.mem_cons_of_mem _ h1
    · rw [show dinsert ((k0, v0) :: rest) k v = (k0, v0) :: dinsert rest k v from by
        simp [dinsert, hk]] at he
      rcases List.mem_cons.mp he with h1 | h1
      · left; exact h1 ▸ List.mem_cons_self _ _
      · rcases ih e h1 with h' | h'
        · left; exact List.mem_cons_of_mem _ h'
        · right; exact h'

theorem dinsert_eq_append {α : Type} (m : List (String × α)) (k : String) (v : α)
    (h : k ∉ m.map Prod.fst) : dinsert m k v = m ++ [(k, v)] := by
  induction m with
  | nil => simp [dinsert]
  | cons kv rest ih =>
    obtain ⟨k0, v0⟩ := kv
    simp only [List.map_cons, List.mem_cons] at h
    push_neg at h
    simp only [dinsert, if_neg (Ne.symm h.1), List.cons_append]
    rw [ih h.2]

/-! ### Placement-loop lemmas -/

theorem dfoldIdx_keys_mem (f : Nat → Offset × Size) (ws : List Window) :
    ∀ (i : Nat) (acc : PosMap) (k : String),
      k ∈ (dfoldIdx f ws i acc).map Prod.fst ↔
        k ∈ acc.map Prod.fst ∨ k ∈ ws.map Window.wid := by
  induction ws with
  | nil => intro i acc k; simp [dfoldIdx]
  | cons w rest ih =>
    intro i acc k
    simp only [dfoldIdx, ih, mem_keys_dinsert, List.map_cons, List.mem_cons]
    tauto

theorem dfoldIdx_keys_nodup (f : Nat → Offset × Size) (ws : List Window) :
    ∀ (i : Nat) (acc : PosMap), (acc.map Prod.fst).Nodup →
      ((dfoldIdx f ws i acc).map Prod.fst).Nodup := by
  induction ws with
  | nil => intro i acc h; simpa [dfoldIdx] using h
  | cons w rest ih =>
    intro i acc h
    exact ih _ _ (nodup_keys_dinsert _ _ _ h)

theorem dfoldIdx_forall (f : Nat → Offset × Size) {P : String × (Offset × Size) → Prop}
    (ws : List Window) :
    ∀ (i : Nat) (acc : PosMap), (∀ e ∈ acc, P e) → (∀ k j, P (k, f j)) →
      ∀ e ∈ dfoldIdx f ws i acc, P e := by
  induction ws with
  | nil => intro i acc hacc _ e he; exact hacc e he
  | cons w rest ih =>
    intro i acc hacc hf e he
    refine ih _ _ ?_ hf e he
    intro e' he'
    rcases mem_dinsert _ _ _ e' he' with h' | h'
    · exact hacc e' h'
    · exact h' ▸ hf w.wid i

theorem dfoldIdx_eq_append (f : Nat → Offset × Size) (ws : List Window) :
    ∀ (i : Nat) (acc : PosMap), (∀ w ∈ ws, w.wid ∉ acc.map Prod.fst) →
      (ws.map Window.wid).Nodup →
      dfoldIdx f ws i acc = acc ++ entriesFrom f ws i := by
  induction ws with
  | nil => intro i acc _ _; simp [dfoldIdx, entriesFrom]
  | cons w rest ih =>
    intro i acc hfresh hnodup
    simp only [List.map_cons, List.nodup_cons] at hnodup
    have hw : w.wid ∉ acc.map Prod.fst := hfresh w (List.mem_cons_self _ _)
    simp only [dfoldIdx, entriesFrom]
    rw [dinsert_eq_append _ _ _ hw,
      ih (i + 1) (acc ++ [(w.wid, f i)]) ?_ hnodup.2, List.append_assoc]
    · simp
    · intro w' hw'
      simp only [List.map_append, List.mem_append, List.map_cons]
      push_neg
      refine ⟨hfresh w' (List.mem_cons_of_mem _ hw'), ?_⟩
      simp only [List.map_nil, List.mem_singleton]
      intro hc
      exact hnodup.1 (hc ▸ List.mem_map_of_mem Window.wid hw')

theorem lookup_entriesFrom (f : Nat → Offset × Size) (ws : List Window) :
    ∀ (i : Nat) (j : Nat) (hj : j < ws.length), (ws.map Window.wid).Nodup →
      List.lookup (ws.get ⟨j, hj⟩).wid (entriesFrom f ws i) = some (f (i + j)) := by
  induction ws with
  | nil => intro i j hj; simp at hj
  | cons w rest ih =>
    intro i j hj hnodup
    simp only [List.map_cons, List.nodup_cons] at hnodup
    rcases j with _ | j'
    · simp [entriesFrom, List.lookup]
    · have hj' : j' < rest.length := Nat.lt_of_succ_lt_succ hj
      have hne : ((rest.get ⟨j', hj'⟩).wid == w.wid) = false := by
        rw [beq_eq_false_iff_ne]
        intro hc
        exact hnodup.1 (hc ▸ List.mem_map_of_mem Window.wid (rest.get_mem _ _))
      simp only [List.get_cons_succ, entriesFrom, List.lookup, hne]
      rw [show i + (j' + 1) = (i + 1) + j' by omega]
      exact ih (i + 1) j' hj' hnodup.2

/-- C9: `calculate_tiling_positions` returns an empty mapping for an empty
window list and for floating mode; for a non-empty list in a non-floating
mode it rejects a non-positive container dimension (invalid container) and a
negative gap (invalid gap); an error result carries no partial mapping. -/
theorem calculate_edge_and_validation :
    ∀ (ws : List Window) (layout : TilingLayout) (cs : Size) (gap : Int),
      (ws = [] → calculate_tiling_positions ws layout cs gap = .ok []) ∧
      (layout = .floating → calculate_tiling_positions ws layout cs gap = .ok []) ∧
      (ws ≠ [] → layout ≠ .floating → (cs.width ≤ 0 ∨ cs.height ≤ 0) →
        calculate_tiling_positions ws layout cs gap = .error .invalidContainer) ∧
      (ws ≠ [] → layout ≠ .floating → 0 < cs.width → 0 < cs.height → gap < 0 →
        calculate_tiling_positions ws layout cs gap = .error .invalidGap) := by
  intro ws layout cs gap
  refine ⟨?_, ?_, ?_, ?_⟩
  · intro h; simp [calculate_tiling_positions, h]
  · intro h
    by_cases hw : ws = [] <;> simp [calculate_tiling_positions, hw, h]
  · intro hw hl hc
    simp [calculate_tiling_positions, hw, hl, hc]
  · intro hw hl hcw hch hg
    have hc : ¬(cs.width ≤ 0 ∨ cs.height ≤ 0) := by push_neg; exact ⟨hcw, hch⟩
    simp [calculate_tiling_positions, hw, hl, hc, hg]

/-- Witness for C9 at a concrete input: one window, grid mode, a container
with non-positive width is rejected as an invalid container. -/
theorem calculate_edge_and_validation_witness :
    (([sampleWindow "a" true] : List Window) ≠ [] ∧
      (TilingLayout.grid ≠ TilingLayout.floating) ∧
      ((-5 : Int) ≤ 0 ∨ (8 : Int) ≤ 0)) ∧
    calculate_tiling_positions [sampleWindow "a" true] .grid ⟨-5, 8⟩ 0 =
      .error .invalidContainer :=
  ⟨⟨by decide, by decide, by decide⟩,
    (calculate_edge_and_validation [sampleWindow "a" true] .grid ⟨-5, 8⟩ 0).2.2.1
      (by decide) (by decide) (by decide)⟩

/-- C10: the empty-list and floating-mode early returns run before the
container and gap validations, so an empty window list or floating mode
yields the empty mapping for every container size and gap, including
non-positive sizes and negative gaps. -/
theorem empty_or_floating_always_ok :
    ∀ (layout : TilingLayout) (cs : Size) (gap : Int) (ws : List Window),
      calculate_tiling_positions [] layout cs gap = .ok [] ∧
      calculate_tiling_positions ws .floating cs gap = .ok [] := by
  intro layout cs gap ws
  constructor
  · simp [calculate_tiling_positions]
  · by_cases h : ws = [] <;> simp [calculate_tiling_positions, h]

/-! ### Per-branch success properties -/

theorem entry_props_h (v hgap ww wh : Int) (a : Nat) (hv : 0 ≤ v) (hh : 0 ≤ hgap)
    (h1 : min_window_width ≤ ww) (h2 : min_window_height ≤ wh) :
    (0 ≤ hgap + (a : Int) * (ww + hgap) ∧ 0 ≤ v) ∧
      (min_window_width ≤ ww ∧ min_window_height ≤ wh) := by
  have h1' : (12 : Int) ≤ ww := by simpa [min_window_width] using h1
  have ha : (0 : Int) ≤ (a : Int) := Int.natCast_nonneg a
  have hp : (0 : Int) ≤ (a : Int) * (ww + hgap) := mul_nonneg ha (by linarith)
  exact ⟨⟨by linarith, hv⟩, h1, h2⟩

theorem entry_props_v (v hgap ww wh : Int) (b : Nat) (hv : 0 ≤ v) (hh : 0 ≤ hgap)
    (h1 : min_window_width ≤ ww) (h2 : min_window_height ≤ wh) :
    (0 ≤ hgap ∧ 0 ≤ v + (b : Int) * (wh + v)) ∧
      (min_window_width ≤ ww ∧ min_window_height ≤ wh) := by
  have h2' : (6 : Int) ≤ wh := by simpa [min_window_height] using h2
  have hb : (0 : Int) ≤ (b : Int) := Int.natCast_nonneg b
  have hp : (0 : Int) ≤ (b : Int) * (wh + v) := mul_nonneg hb (by linarith)
  exact ⟨⟨hh, by linarith⟩, h1, h2⟩

theorem entry_props_g (v hgap ww wh : Int) (a b : Nat) (hv : 0 ≤ v) (hh : 0 ≤ hgap)
    (h1 : min_window_width ≤ ww) (h2 : min_window_height ≤ wh) :
    (0 ≤ hgap + (a : Int) * (ww + hgap) ∧ 0 ≤ v + (b : Int) * (wh + v)) ∧
      (min_window_width ≤ ww ∧ min_window_height ≤ wh) := by
  have h1' : (12 : Int) ≤ ww := by simpa [min_window_width] using h1
  have h2' : (6 : Int) ≤ wh := by simpa [min_window_height] using h2
  have ha : (0 : Int) ≤ (a : Int) := Int.natCast_nonneg a
  have hb : (0 : Int) ≤ (b : Int) := Int.natCast_nonneg b
  have hpa : (0 : Int) ≤ (a : Int) * (ww + hgap) := mul_nonneg ha (by linarith)
  have hpb : (0 : Int) ≤ (b : Int) * (wh + v) := mul_nonneg hb (by linarith)
  exact ⟨⟨by linarith, by linarith⟩, h1, h2⟩

theorem entry_props_d (v hgap mw dw dh : Int) (b : Nat) (hv : 0 ≤ v) (hh : 0 ≤ hgap)
    (hmw : min_window_width ≤ mw) (hdw : min_window_width ≤ dw)
    (hdh : min_window_height ≤ dh) :
    (0 ≤ hgap + mw + hgap ∧ 0 ≤ v + (b : Int) * (dh + v)) ∧
      (min_window_width ≤ dw ∧ min_window_height ≤ dh) := by
  have hmw' : (12 : Int) ≤ mw := by simpa [min_window_width] using hmw
  have hdh' : (6 : Int) ≤ dh := by simpa [min_window_height] using hdh
  have hb : (0 : Int) ≤ (b : Int) := Int.natCast_nonneg b
  have hpb : (0 : Int) ≤ (b : Int) * (dh + v) := mul_nonneg hb (by linarith)
  exact ⟨⟨by linarith, by linarith⟩, hdw, hdh⟩

theorem hsplit_props (ws : List Window) (cs : Size) (gap : Int) (m : PosMap)
    (hg : 0 ≤ gap) (h : hsplit ws cs gap = .ok m) :
    (∀ k ∈ ws.map Window.wid, (m.map Prod.fst).count k = 1) ∧
    (∀ e ∈ m, (0 ≤ (e.2.1).x ∧ 0 ≤ (e.2.1).y) ∧
      (min_window_width ≤ (e.2.2).width ∧ min_window_height ≤ (e.2.2).height)) := by
  simp only [hsplit] at h
  split at h
  · exact absurd h (by simp)
  next hc =>
    push_neg at hc
    obtain ⟨hc1, hc2⟩ := hc
    replace h := Except.ok.inj h
    subst h
    constructor
    · intro k hk
      exact List.count_eq_one_of_mem
        (dfoldIdx_keys_nodup _ ws 0 [] (by simp))
        ((dfoldIdx_keys_mem _ ws 0 [] k).mpr (Or.inr hk))
    · exact dfoldIdx_forall _ ws 0 []
        (fun e he => absurd he (List.not_mem_nil e))
        (fun k j => entry_props_h gap (gap * 2) _ _ j hg (by linarith) hc1 hc2)

theorem vsplit_props (ws : List Window) (cs : Size) (gap : Int) (m : PosMap)
    (hg : 0 ≤ gap) (h : vsplit ws cs gap = .ok m) :
    (∀ k ∈ ws.map Window.wid, (m.map Prod.fst).count k = 1) ∧
    (∀ e ∈ m, (0 ≤ (e.2.1).x ∧ 0 ≤ (e.2.1).y) ∧
      (min_window_width ≤ (e.2.2).width ∧ min_window_height ≤ (e.2.2).height)) := by
  simp only [vsplit] at h
  split at h
  · exact absurd h (by simp)
  next hc =>
    push_neg at hc
    obtain ⟨hc1, hc2⟩ := hc
    replace h := Except.ok.inj h
    subst h
    constructor
    · intro k hk
      exact List.count_eq_one_of_mem
        (dfoldIdx_keys_nodup _ ws 0 [] (by simp))
        ((dfoldIdx_keys_mem _ ws 0 [] k).mpr (Or.inr hk))
    · exact dfoldIdx_forall _ ws 0 []
        (fun e he => absurd he (List.not_mem_nil e))
        (fun k j => entry_props_v gap (gap * 2) _ _ j hg (by linarith) hc1 hc2)

theorem grid_props (ws : List Window) (cs : Size) (gap : Int) (m : PosMap)
    (hg : 0 ≤ gap) (h : gridLayout ws cs gap = .ok m) :
    (∀ k ∈ ws.map Window.wid, (m.map Prod.fst).count k = 1) ∧
    (∀ e ∈ m, (0 ≤ (e.2.1).x ∧ 0 ≤ (e.2.1).y) ∧
      (min_window_width ≤ (e.2.2).width ∧ min_window_height ≤ (e.2.2).height)) := by
  simp only [gridLayout] at h
  split at h
  · exact absurd h (by simp)
  next hc =>
    push_neg at hc
    obtain ⟨hc1, hc2⟩ := hc
    replace h := Except.ok.inj h
    subst h
    constructor
    · intro k hk
      exact List.count_eq_one_of_mem
        (dfoldIdx_keys_nodup _ ws 0 [] (by simp))
        ((dfoldIdx_keys_mem _ ws 0 [] k).mpr (Or.inr hk))
    · exact dfoldIdx_forall _ ws 0 []
        (fun e he => absurd he (List.not_mem_nil e))
        (fun k j => entry_props_g gap (gap * 2) _ _
          (j % gridCols ws.length) (j / gridCols ws.length) hg (by linarith) hc1 hc2)

theorem masterDetail_props (ws : List Window) (cs : Size) (gap : Int) (m : PosMap)
    (hg : 0 ≤ gap) (hpre : preValidate ws .master_detail cs gap = none)
    (h : masterDetail ws cs gap = .ok m) :
    (∀ k ∈ ws.map Window.wid, (m.map Prod.fst).count k = 1) ∧
    (∀ e ∈ m, 0 ≤ (e.2.1).x ∧ 0 ≤ (e.2.1).y) ∧
    (ws.length ≠ 1 →
      ∀ e ∈ m, min_window_width ≤ (e.2.2).width ∧ min_window_height ≤ (e.2.2).height) := by
  match ws with
  | [] =>
    have hm : m = [] := by simpa [masterDetail] using h.symm
    subst hm
    simp
  | w0 :: rest =>
    simp only [masterDetail] at h
    by_cases hn : ((w0 :: rest).length : Int) = 1
    · rw [if_pos hn] at h
      have hrest : rest = [] := by
        have : rest.length = 0 := by
          have := hn
          simp only [List.length_cons] at this
          omega
        exact List.length_eq_zero.mp this
      subst hrest
      replace h := Except.ok.inj h
      subst h
      refine ⟨?_, ?_, ?_⟩
      · intro k hk
        simp only [List.map_cons, List.map_nil, List.mem_cons,
          List.not_mem_nil, or_false] at hk
        simp [hk]
      · intro e he
        simp only [List.mem_singleton] at he
        subst he
        constructor <;> simp <;> linarith
      · intro hlen
        exact absurd rfl hlen
    · rw [if_neg hn] at h
      have hn2 : 1 < ((w0 :: rest).length : Int) := by
        have : 1 ≤ (w0 :: rest).length := Nat.succ_le_succ (Nat.zero_le _)
        omega
      simp only [preValidate] at hpre
      rw [if_pos hn2] at hpre
      split at hpre
      · exact absurd hpre (by simp)
      next hadh =>
        split at hpre
        · exact absurd hpre (by simp)
        next hwidths =>
          push_neg at hadh
          split at h
          · exact absurd h (by simp)
          next hc1 =>
            split at h
            · exact absurd h (by simp)
            next hc2 =>
              push_neg at hc1
              obtain ⟨hmw, hdw⟩ := hc1
              push_neg at hc2
              replace h := Except.ok.inj h
              subst h
              have hdc : (1 : Int) ≤ ((w0 :: rest).length : Int) - 1 := by omega
              have hvd : (0 : Int) ≤ gap * (((w0 :: rest).length : Int) - 1 - 1) :=
                mul_nonneg hg (by omega)
              have hmh : min_window_height ≤ cs.height - 2 * gap := by
                simp only [min_window_height] at hadh ⊢
                nlinarith
              have hmaster : ∀ e ∈ dinsert ([] : PosMap) w0.wid
                  (⟨gap * 2, gap⟩,
                   ⟨intTrunc06 (cs.width - 2 * (gap * 2)), cs.height - 2 * gap⟩),
                  ((0 ≤ (e.2.1).x ∧ 0 ≤ (e.2.1).y) ∧
                   (min_window_width ≤ (e.2.2).width ∧ min_window_height ≤ (e.2.2).height)) := by
                intro e he
                simp only [dinsert, List.mem_singleton] at he
                subst he
                exact ⟨⟨by simp; linarith, by simp; linarith⟩, hmw, hmh⟩
              have hall : ∀ e ∈ dfoldIdx
                  (fun j => (⟨gap * 2 + intTrunc06 (cs.width - 2 * (gap * 2)) + gap * 2,
                              gap + (j : Int) *
                                ((cs.height - (2 * gap + gap * (((w0 :: rest).length : Int) - 1 - 1))).fdiv
                                  (((w0 :: rest).length : Int) - 1) + gap)⟩,
                             ⟨cs.width - 2 * (gap * 2) - intTrunc06 (cs.width - 2 * (gap * 2)) - gap * 2,
                              (cs.height - (2 * gap + gap * (((w0 :: rest).length : Int) - 1 - 1))).fdiv
                                (((w0 :: rest).length : Int) - 1)⟩)) rest 0
                  (dinsert ([] : PosMap) w0.wid
                    (⟨gap * 2, gap⟩,
                     ⟨intTrunc06 (cs.width - 2 * (gap * 2)), cs.height - 2 * gap⟩)),
                  ((0 ≤ (e.2.1).x ∧ 0 ≤ (e.2.1).y) ∧
                   (min_window_width ≤ (e.2.2).width ∧ min_window_height ≤ (e.2.2).height)) :=
                dfoldIdx_forall _ rest 0 _ hmaster
                  (fun k j => entry_props_d gap (gap * 2) _ _ _ j hg (by linarith) hmw hdw hc2)
              refine ⟨?_, fun e he => (hall e he).1, fun _ e he => (hall e he).2⟩
              intro k hk
              refine List.count_eq_one_of_mem
                (dfoldIdx_keys_nodup _ rest 0 _ (by simp [dinsert]))
                ((dfoldIdx_keys_mem _ rest 0 _ k).mpr ?_)
              simp only [List.map_cons, List.mem_cons] at hk
              rcases hk with hk | hk
              · exact Or.inl (by simp [dinsert, hk])
              · exact Or.inr hk

/-- C1 (amended): whenever `calculate_tiling_positions` succeeds in a
non-floating mode, every window identifier of the input list appears exactly
once as a key of the result and no offset coordinate is negative; every
resulting width/height meets the minimums (12, 6) in every case except the
master-detail layout with exactly one window, whose single unvalidated
window is sized `(W - 2h, H - 2v)`. -/
theorem calculate_success_properties :
    ∀ (ws : List Window) (layout : TilingLayout) (cs : Size) (gap : Int) (m : PosMap),
      layout ≠ .floating →
      calculate_tiling_positions ws layout cs gap = .ok m →
      ((∀ k ∈ ws.map Window.wid, (m.map Prod.fst).count k = 1) ∧
       (∀ e ∈ m, 0 ≤ (e.2.1).x ∧ 0 ≤ (e.2.1).y) ∧
       (¬(layout = .master_detail ∧ ws.length = 1) →
         ∀ e ∈ m, min_window_width ≤ (e.2.2).width ∧
           min_window_height ≤ (e.2.2).height)) := by
  intro ws layout cs gap m hl h
  by_cases hw : ws = []
  · subst hw
    have hm : m = [] := by simpa [calculate_tiling_positions] using h.symm
    subst hm
    simp
  · simp only [calculate_tiling_positions, if_neg hw, if_neg hl] at h
    split at h
    · exact absurd h (by simp)
    next hcs =>
      split at h
      · exact absurd h (by simp)
      next hgap =>
        push_neg at hgap
        cases hpre : preValidate ws layout cs gap with
        | some e => rw [hpre] at h; exact absurd h (by simp)
        | none =>
          rw [hpre] at h
          cases layout with
          | floating => exact absurd rfl hl
          | horizontal_split =>
            obtain ⟨h1, h2⟩ := hsplit_props ws cs gap m hgap h
            exact ⟨h1, fun e he => (h2 e he).1, fun _ e he => (h2 e he).2⟩
          | vertical_split =>
            obtain ⟨h1, h2⟩ := vsplit_props ws cs gap m hgap h
            exact ⟨h1, fun e he => (h2 e he).1, fun _ e he => (h2 e he).2⟩
          | grid =>
            obtain ⟨h1, h2⟩ := grid_props ws cs gap m hgap h
            exact ⟨h1, fun e he => (h2 e he).1, fun _ e he => (h2 e he).2⟩
          | master_detail =>
            obtain ⟨h1, h2, h3⟩ := masterDetail_props ws cs gap m hgap hpre h
            refine ⟨h1, h2, fun hne => h3 ?_⟩
            intro hc
            exact hne ⟨rfl, hc⟩

/-- Counterexample to C1 as stated: master-detail with a single window in a
10x10 container succeeds, yet the resulting width 10 is below the minimum
width 12 (the single-window master-detail path performs no minimum-size
validation). -/
theorem master_detail_single_window_below_minimum :
    calculate_tiling_positions [sampleWindow "a" true] .master_detail ⟨10, 10⟩ 0 =
      .ok [("a", (⟨0, 0⟩, ⟨10, 10⟩))] ∧ (10 : Int) < min_window_width := by
  constructor
  · decide
  · decide

/-- Witness for the amended C1 at a concrete input: a successful two-window
horizontal split where the identifier count is 1. -/
theorem calculate_success_properties_witness :
    calculate_tiling_positions [sampleWindow "a" true, sampleWindow "b" true]
      .horizontal_split ⟨100, 40⟩ 0 =
      .ok [("a", (⟨0, 0⟩, ⟨50, 40⟩)), ("b", (⟨50, 0⟩, ⟨50, 40⟩))] ∧
    ((([("a", ((⟨0, 0⟩ : Offset), (⟨50, 40⟩ : Size))),
        ("b", (⟨50, 0⟩, ⟨50, 40⟩))] : PosMap).map Prod.fst).count "a" = 1) :=
  ⟨by decide,
    (calculate_success_properties [sampleWindow "a" true, sampleWindow "b" true]
      .horizontal_split ⟨100, 40⟩ 0
      [("a", (⟨0, 0⟩, ⟨50, 40⟩)), ("b", (⟨50, 0⟩, ⟨50, 40⟩))]
      (by decide) (by decide)).1 "a" (by decide)⟩

/-- C6: in a successful HorizontalSplit every window gets width
`(W - (n+1)*h) / n` (with `h = 2v`) and height `H - 2v`, the i-th window
sitting at `x = h + i*(width + h)`, `y = v`. -/
theorem hsplit_formula :
    ∀ (ws : List Window) (cs : Size) (gap : Int) (m : PosMap),
      1 ≤ ws.length →
      (ws.map Window.wid).Nodup →
      calculate_tiling_positions ws .horizontal_split cs gap = .ok m →
      ∀ (i : Nat) (hi : i < ws.length),
        List.lookup (ws.get ⟨i, hi⟩).wid m =
          some (⟨2 * gap + (i : Int) *
                  ((cs.width - ((ws.length : Int) + 1) * (2 * gap)).fdiv (ws.length : Int)
                    + 2 * gap), gap⟩,
                ⟨(cs.width - ((ws.length : Int) + 1) * (2 * gap)).fdiv (ws.length : Int),
                 cs.height - 2 * gap⟩) := by
  intro ws cs gap m hn hnodup h
  have hw : ws ≠ [] := by
    intro hc
    subst hc
    simp at hn
  rw [show (TilingLayout.horizontal_split : TilingLayout) = .horizontal_split from rfl] at h
  simp only [calculate_tiling_positions, if_neg hw,
    if_neg (by decide : ¬(TilingLayout.horizontal_split = TilingLayout.floating))] at h
  split at h
  · exact absurd h (by simp)
  split at h
  · exact absurd h (by simp)
  cases hpre : preValidate ws .horizontal_split cs gap with
  | some e => rw [hpre] at h; exact absurd h (by simp)
  | none =>
    rw [hpre] at h
    simp only [hsplit] at h
    split at h
    · exact absurd h (by simp)
    replace h := Except.ok.inj h
    have hm : m = entriesFrom (fun i =>
        (⟨gap * 2 + (i : Int) *
            ((cs.width - (2 * (gap * 2) + gap * 2 * ((ws.length : Int) - 1))).fdiv (ws.length : Int)
              + gap * 2), gap⟩,
         ⟨(cs.width - (2 * (gap * 2) + gap * 2 * ((ws.length : Int) - 1))).fdiv (ws.length : Int),
          cs.height - 2 * gap⟩)) ws 0 := by
      rw [← h]
      simpa using dfoldIdx_eq_append _ ws 0 [] (by simp) hnodup
    intro i hi
    rw [hm, lookup_entriesFrom _ ws 0 i hi hnodup]
    have hdd : cs.width - (2 * (gap * 2) + gap * 2 * ((ws.length : Int) - 1)) =
        cs.width - ((ws.length : Int) + 1) * (2 * gap) := by ring
    refine congrArg some ?_
    simp only [Nat.zero_add, hdd]
    rw [show gap * 2 = 2 * gap from by ring]

/-- Witness for C6 at the spec's concrete example: container (100, 40), two
windows, gap 0 — both windows sized (50, 40) at x-offsets 0 and 50. -/
theorem hsplit_formula_witness :
    calculate_tiling_positions [sampleWindow "a" true, sampleWindow "b" true]
      .horizontal_split ⟨100, 40⟩ 0 =
      .ok [("a", (⟨0, 0⟩, ⟨50, 40⟩)), ("b", (⟨50, 0⟩, ⟨50, 40⟩))] ∧
    List.lookup "b" ([("a", (⟨0, 0⟩, ⟨50, 40⟩)),
      ("b", (⟨50, 0⟩, ⟨50, 40⟩))] : PosMap) = some (⟨50, 0⟩, ⟨50, 40⟩) :=
  ⟨by decide,
    ((hsplit_formula [sampleWindow "a" true, sampleWindow "b" true] ⟨100, 40⟩ 0
      [("a", (⟨0, 0⟩, ⟨50, 40⟩)), ("b", (⟨50, 0⟩, ⟨50, 40⟩))]
      (by decide) (by decide) (by decide) 1 (by decide)).trans (by decide))⟩

/-- C5: in a successful MasterDetail with more than one window, the first
window sits at `(h, v)` with width `int((W - 2h) * 0.6)` and height
`H - 2v`; each later window (index `i ≥ 1`) has width
`(W - 2h) - master_width - h`, height `(H - n*v) / (n - 1)`,
`x = h + master_width + h` and `y = v + (i-1)*(detail_height + v)`. -/
theorem masterDetail_formula :
    ∀ (ws : List Window) (cs : Size) (gap : Int) (m : PosMap),
      1 < ws.length →
      (ws.map Window.wid).Nodup →
      calculate_tiling_positions ws .master_detail cs gap = .ok m →
      ∀ (i : Nat) (hi : i < ws.length),
        List.lookup (ws.get ⟨i, hi⟩).wid m =
          some (if i = 0 then
              (⟨2 * gap, gap⟩,
               ⟨intTrunc06 (cs.width - 2 * (2 * gap)), cs.height - 2 * gap⟩)
            else
              (⟨2 * gap + intTrunc06 (cs.width - 2 * (2 * gap)) + 2 * gap,
                gap + ((i : Int) - 1) *
                  ((cs.height - (ws.length : Int) * gap).fdiv ((ws.length : Int) - 1) + gap)⟩,
               ⟨(cs.width - 2 * (2 * gap)) - intTrunc06 (cs.width - 2 * (2 * gap)) - 2 * gap,
                (cs.height - (ws.length : Int) * gap).fdiv ((ws.length : Int) - 1)⟩)) := by
  intro ws cs gap m hn hnodup h
  match ws, hn with
  | w0 :: rest, hn =>
  have hw : (w0 :: rest) ≠ ([] : List Window) := by simp
  simp only [calculate_tiling_positions, if_neg hw,
    if_neg (by decide : ¬(TilingLayout.master_detail = TilingLayout.floating))] at h
  split at h
  · exact absurd h (by simp)
  split at h
  · exact absurd h (by simp)
  cases hpre : preValidate (w0 :: rest) .master_detail cs gap with
  | some e => rw [hpre] at h; exact absurd h (by simp)
  | none =>
    rw [hpre] at h
    simp only [masterDetail] at h
    have hn1 : ¬(((w0 :: rest).length : Int) = 1) := by
      simp only [List.length_cons] at hn ⊢
      omega
    rw [if_neg hn1] at h
    split at h
    · exact absurd h (by simp)
    split at h
    · exact absurd h (by simp)
    replace h := Except.ok.inj h
    simp only [List.map_cons, List.nodup_cons] at hnodup
    have hfresh : ∀ w ∈ rest, w.wid ∉ (dinsert ([] : PosMap) w0.wid
        (⟨gap * 2, gap⟩,
         ⟨intTrunc06 (cs.width - 2 * (gap * 2)), cs.height - 2 * gap⟩)).map Prod.fst := by
      intro w hwmem
      simp only [dinsert, List.map_cons, List.map_nil, List.mem_singleton]
      intro hc
      exact hnodup.1 (hc ▸ List.mem_map_of_mem Window.wid hwmem)
    have hm : m = (w0.wid,
        (⟨gap * 2, gap⟩,
         ⟨intTrunc06 (cs.width - 2 * (gap * 2)), cs.height - 2 * gap⟩)) ::
        entriesFrom (fun j =>
          (⟨gap * 2 + intTrunc06 (cs.width - 2 * (gap * 2)) + gap * 2,
            gap + (j : Int) *
              ((cs.height - (2 * gap + gap * (((w0 :: rest).length : Int) - 1 - 1))).fdiv
                (((w0 :: rest).length : Int) - 1) + gap)⟩,
           ⟨cs.width - 2 * (gap * 2) - intTrunc06 (cs.width - 2 * (gap * 2)) - gap * 2,
            (cs.height - (2 * gap + gap * (((w0 :: rest).length : Int) - 1 - 1))).fdiv
              (((w0 :: rest).length : Int) - 1)⟩)) rest 0 := by
      rw [← h, dfoldIdx_eq_append _ rest 0 _ hfresh hnodup.2]
      simp [dinsert]
    have hdd : cs.height - (2 * gap + gap * (((w0 :: rest).length : Int) - 1 - 1)) =
        cs.height - ((w0 :: rest).length : Int) * gap := by ring
    have hdw : cs.width - 2 * (gap * 2) = cs.width - 2 * (2 * gap) := by ring
    have h2g : gap * 2 = 2 * gap := by ring
    intro i hi
    rcases i with _ | j
    · rw [hm, if_pos rfl]
      have hget : ((w0 :: rest).get ⟨0, hi⟩) = w0 := rfl
      rw [hget]
      simp only [List.lookup, beq_self_eq_true]
      rw [hdw, h2g]
    · have hj : j < rest.length := Nat.lt_of_succ_lt_succ hi
      have hne : ((rest.get ⟨j, hj⟩).wid == w0.wid) = false := by
        rw [beq_eq_false_iff_ne]
        intro hc
        exact hnodup.1 (hc ▸ List.mem_map_of_mem Window.wid (rest.get_mem _ _))
      rw [hm]
      simp only [List.get_cons_succ, List.lookup, hne]
      rw [lookup_entriesFrom _ rest 0 j hj hnodup.2]
      refine congrArg some ?_
      rw [if_neg (Nat.succ_ne_zero j)]
      have hcast : ((j + 1 : Nat) : Int) - 1 = (j : Int) := by push_cast; ring
      simp only [Nat.zero_add, hdd]
      rw [hdw, h2g, hcast]

/-- Witness for C5 at the spec's concrete example: three windows, container
(100, 30), gap 0 — the third window lands at (60, 15) with size (40, 15). -/
theorem masterDetail_formula_witness :
    calculate_tiling_positions
      [sampleWindow "a" true, sampleWindow "b" true, sampleWindow "c" true]
      .master_detail ⟨100, 30⟩ 0 =
      .ok [("a", (⟨0, 0⟩, ⟨60, 30⟩)), ("b", (⟨60, 0⟩, ⟨40, 15⟩)),
           ("c", (⟨60, 15⟩, ⟨40, 15⟩))] ∧
    List.lookup "c" ([("a", (⟨0, 0⟩, ⟨60, 30⟩)), ("b", (⟨60, 0⟩, ⟨40, 15⟩)),
      ("c", (⟨60, 15⟩, ⟨40, 15⟩))] : PosMap) = some (⟨60, 15⟩, ⟨40, 15⟩) :=
  ⟨by decide,
    ((masterDetail_formula
      [sampleWindow "a" true, sampleWindow "b" true, sampleWindow "c" true]
      ⟨100, 30⟩ 0
      [("a", (⟨0, 0⟩, ⟨60, 30⟩)), ("b", (⟨60, 0⟩, ⟨40, 15⟩)),
       ("c", (⟨60, 15⟩, ⟨40, 15⟩))]
      (by decide) (by decide) (by decide) 2 (by decide)).trans (by decide))⟩

theorem openWindowsByInsertion_ne_nil {s : ManagerState}
    (h : openWindowsByInsertion s ≠ []) : s.windows ≠ [] := by
  intro hc
  exact h (by simp [openWindowsByInsertion, hc])

/-- C3: `set_window_gap` rejects every negative gap; with a non-floating
layout and at least one open window it dry-runs the calculator with the
candidate gap and rejects when the dry run fails; every rejection leaves the
state (hence the stored gap) unchanged, and success stores exactly the new
gap. -/
theorem set_window_gap_spec :
    ∀ (s : ManagerState) (g : Int),
      (g < 0 → setWindowGap s g = (some .negativeGap, s)) ∧
      (0 ≤ g → s.tiling_layout ≠ .floating → openWindowsByInsertion s ≠ [] →
        ∀ e, calculate_tiling_positions (openWindowsByInsertion s)
            s.tiling_layout s.container_size g = .error e →
          setWindowGap s g = (some (.gapTooLargeForLayout e), s)) ∧
      (∀ r s', setWindowGap s g = (some r, s') → s' = s) ∧
      ((setWindowGap s g).1 = none →
        (setWindowGap s g).2 = { s with window_gap := g }) := by
  intro s g
  refine ⟨?_, ?_, ?_, ?_⟩
  · intro hg
    simp [setWindowGap, hg]
  · intro hg hl ho e hcalc
    rw [setWindowGap, if_neg (not_lt.mpr hg),
      if_pos ⟨hl, openWindowsByInsertion_ne_nil ho⟩, if_pos ho, hcalc]
  · intro r s' h
    by_cases h1 : g < 0
    · simp only [setWindowGap, if_pos h1] at h
      exact (congrArg Prod.snd h).symm
    · by_cases h2 : s.tiling_layout ≠ .floating ∧ s.windows ≠ []
      · by_cases h3 : openWindowsByInsertion s ≠ []
        · cases hcalc : calculate_tiling_positions (openWindowsByInsertion s)
              s.tiling_layout s.container_size g with
          | error e =>
            simp only [setWindowGap, if_neg h1, if_pos h2, if_pos h3, hcalc] at h
            exact (congrArg Prod.snd h).symm
          | ok mm =>
            simp only [setWindowGap, if_neg h1, if_pos h2, if_pos h3, hcalc] at h
            exact absurd (congrArg Prod.fst h) (by simp)
        · simp only [setWindowGap, if_neg h1, if_pos h2, if_neg h3] at h
          exact absurd (congrArg Prod.fst h) (by simp)
      · simp only [setWindowGap, if_neg h1, if_neg h2] at h
        exact absurd (congrArg Prod.fst h) (by simp)
  · intro h
    by_cases h1 : g < 0
    · simp only [setWindowGap, if_pos h1] at h
      exact absurd h (by simp)
    · by_cases h2 : s.tiling_layout ≠ .floating ∧ s.windows ≠ []
      · by_cases h3 : openWindowsByInsertion s ≠ []
        · cases hcalc : calculate_tiling_positions (openWindowsByInsertion s)
              s.tiling_layout s.container_size g with
          | error e =>
            simp only [setWindowGap, if_neg h1, if_pos h2, if_pos h3, hcalc] at h
            exact absurd h (by simp)
          | ok mm =>
            simp only [setWindowGap, if_neg h1, if_pos h2, if_pos h3, hcalc]
        · simp only [setWindowGap, if_neg h1, if_pos h2, if_neg h3]
      · simp only [setWindowGap, if_neg h1, if_neg h2]

/-- The manager state used by the C3 witness: floating layout, no windows. -/
def gapWitnessState : ManagerState :=
  { windows := []
    window_order := []
    tiling_layout := .floating
    window_gap := 0
    last_focused := none
    container_size := ⟨80, 24⟩
    container_offset := ⟨0, 0⟩ }

/-- Witness for C3 at a concrete input: the gap -1 is rejected and the state
is unchanged. -/
theorem set_window_gap_spec_witness :
    ((-1 : Int) < 0) ∧
    setWindowGap gapWitnessState (-1) = (some .negativeGap, gapWitnessState) :=
  ⟨by decide, (set_window_gap_spec gapWitnessState (-1)).1 (by decide)⟩

/-- The manager state used by the C7 counterexample: a tiling layout is
active but no window is registered, so the open-window set is empty. -/
def emptyTilingState : ManagerState :=
  { windows := []
    window_order := []
    tiling_layout := .horizontal_split
    window_gap := 0
    last_focused := none
    container_size := ⟨80, 24⟩
    container_offset := ⟨0, 0⟩ }

/-- Counterexample to C7 as stated: with a non-floating layout and an empty
open-window set, `get_tiling_position` does not fail — it returns
`Offset(0, 0)` (manager.py lines 405-406), although the queried id is absent
from the (empty) mapping of the current open-window set. -/
theorem get_tiling_position_empty_no_failure :
    emptyTilingState.tiling_layout ≠ .floating ∧
    openWindowsByInsertion emptyTilingState = [] ∧
    getTilingPosition emptyTilingState (sampleWindow "a" true) =
      (.ok ⟨0, 0⟩, emptyTilingState) := by
  refine ⟨by decide, by decide, by decide⟩

/-- C7 (amended): `get_tiling_position` fails with `NotTiling` in floating
mode, and fails with a window-not-found error when the mapping computed for
the current non-empty open-window set lacks the queried id; but when the
open-window set is empty it returns `Offset(0, 0)` without failing. -/
theorem get_tiling_position_spec :
    ∀ (s : ManagerState) (w : Window),
      (s.tiling_layout = .floating →
        getTilingPosition s w = (.error .notTiling, s)) ∧
      (s.tiling_layout ≠ .floating → openWindowsByInsertion s = [] →
        getTilingPosition s w = (.ok ⟨0, 0⟩, s)) ∧
      (∀ m, s.tiling_layout ≠ .floating → openWindowsByInsertion s ≠ [] →
        calculate_tiling_positions (openWindowsByInsertion s) s.tiling_layout
          s.container_size s.window_gap = .ok m →
        List.lookup w.wid m = none →
        getTilingPosition s w = (.error .windowNotFound, s)) := by
  intro s w
  refine ⟨?_, ?_, ?_⟩
  · intro hf
    simp [getTilingPosition, hf]
  · intro hl ho
    rw [getTilingPosition, if_neg hl, if_pos ho]
  · intro m hl ho hcalc hlook
    simp only [getTilingPosition, if_neg hl, if_neg ho, hcalc, hlook]

/-- Witness for the amended C7 at a concrete input: in floating mode the
query fails with the not-tiling error. -/
theorem get_tiling_position_spec_witness :
    gapWitnessState.tiling_layout = .floating ∧
    getTilingPosition gapWitnessState (sampleWindow "a" true) =
      (.error .notTiling, gapWitnessState) :=
  ⟨by decide,
    (get_tiling_position_spec gapWitnessState (sampleWindow "a" true)).1 (by decide)⟩

/-! ### Lookup/update lemmas for the manager's window dict -/

theorem lookup_updateWindow (m : List (String × Window)) (k k' : String)
    (f : Window → Window) :
    List.lookup k' (updateWindow m k f) =
      if k' = k then (List.lookup k' m).map f else List.lookup k' m := by
  induction m with
  | nil => by_cases h : k' = k <;> simp [updateWindow, h]
  | cons kv rest ih =>
    obtain ⟨k0, w0⟩ := kv
    simp only [updateWindow, List.map_cons]
    by_cases h0 : k0 = k
    · rw [if_pos h0]
      by_cases h1 : k' = k0
      · have hkk : k' = k := h1.trans h0
        have hbt2 : (k == k0) = true := beq_iff_eq.mpr h0.symm
        simp [List.lookup, hkk, hbt2]
      · have hbf : (k' == k0) = false := beq_eq_false_iff_ne.mpr h1
        simp only [List.lookup, hbf]
        rw [← updateWindow]
        exact ih
    · rw [if_neg h0]
      by_cases h1 : k' = k0
      · have hbt : (k' == k0) = true := beq_iff_eq.mpr h1
        simp only [List.lookup, hbt]
        rw [if_neg (fun hc => h0 (h1.symm.trans hc))]
      · have hbf : (k' == k0) = false := beq_eq_false_iff_ne.mpr h1
        simp only [List.lookup, hbf]
        rw [← updateWindow]
        exact ih

theorem lookup_mem {α : Type} (l : List (String × α)) (k : String) (v : α)
    (h : List.lookup k l = some v) : (k, v) ∈ l := by
  induction l with
  | nil => simp [List.lookup] at h
  | cons kv rest ih =>
    obtain ⟨k0, v0⟩ := kv
    by_cases hb : k = k0
    · have hbt : (k == k0) = true := beq_iff_eq.mpr hb
      simp only [List.lookup, hbt] at h
      subst hb
      injection h with hv
      subst hv
      exact List.mem_cons_self _ _
    · have hbf : (k == k0) = false := beq_eq_false_iff_ne.mpr hb
      simp only [List.lookup, hbf] at h
      exact List.mem_cons_of_mem _ (ih h)

theorem mem_keys_lookup_isSome {α : Type} (l : List (String × α)) (k : String)
    (h : k ∈ l.map Prod.fst) : (List.lookup k l).isSome := by
  induction l with
  | nil => simp at h
  | cons kv rest ih =>
    obtain ⟨k0, v0⟩ := kv
    by_cases hb : k = k0
    · simp [List.lookup, beq_iff_eq.mpr hb]
    · have hbf : (k == k0) = false := beq_eq_false_iff_ne.mpr hb
      simp only [List.map_cons, List.mem_cons] at h
      rcases h with h | h
      · exact absurd h hb
      · simp only [List.lookup, hbf]
        exact ih h

/-- The geometry fields written by the apply loop for a computed pair `p`,
shifted by the container offset. -/
def GeometryApplied (off : Offset) (p : Offset × Size) (w : Window) : Prop :=
  w.width = p.2.width ∧ w.height = p.2.height ∧
  w.offset = ⟨p.1.x + off.x, p.1.y + off.y⟩ ∧
  w.starting_width = p.2.width ∧ w.starting_height = p.2.height

theorem geometryApplied_apply (off : Offset) (p : Offset × Size) (w : Window) :
    GeometryApplied off p (applyWindowGeometry off p w) :=
  ⟨rfl, rfl, rfl, rfl, rfl⟩

theorem applyPositions_stable (off : Offset) (pos : PosMap) (ows : List Window) :
    ∀ (m0 : List (String × Window)) (k : String) (p : Offset × Size) (w' : Window),
      List.lookup k pos = some p →
      List.lookup k m0 = some w' →
      GeometryApplied off p w' →
      ∃ w'', List.lookup k (applyPositions off pos ows m0) = some w'' ∧
        GeometryApplied off p w'' := by
  induction ows with
  | nil =>
    intro m0 k p w' hp hm hg
    exact ⟨w', hm, hg⟩
  | cons w2 ows' ih =>
    intro m0 k p w' hp hm hg
    simp only [applyPositions, List.foldl_cons]
    cases hl2 : List.lookup w2.wid pos with
    | none =>
      simp only [hl2]
      exact ih m0 k p w' hp hm hg
    | some p2 =>
      simp only [hl2]
      by_cases hk : k = w2.wid
      · have hp2 : p2 = p := by
          rw [hk] at hp
          rw [hl2] at hp
          exact Option.some.inj hp
        subst hp2
        refine ih _ k p2 (applyWindowGeometry off p2 w') hp ?_
          (geometryApplied_apply off p2 w')
        rw [lookup_updateWindow, if_pos hk, hm]
        rfl
      · refine ih _ k p w' hp ?_ hg
        rw [lookup_updateWindow, if_neg hk]
        exact hm

theorem applyPositions_mem (off : Offset) (pos : PosMap) (ows : List Window) :
    ∀ (m0 : List (String × Window)) (w : Window) (p : Offset × Size),
      w ∈ ows →
      List.lookup w.wid pos = some p →
      (List.lookup w.wid m0).isSome →
      ∃ w'', List.lookup w.wid (applyPositions off pos ows m0) = some w'' ∧
        GeometryApplied off p w'' := by
  induction ows with
  | nil =>
    intro m0 w p hw
    exact absurd hw (List.not_mem_nil w)
  | cons w2 ows' ih =>
    intro m0 w p hw hp hsome
    simp only [applyPositions, List.foldl_cons]
    by_cases hk : w2.wid = w.wid
    · have hl2 : List.lookup w2.wid pos = some p := by rw [hk]; exact hp
      simp only [hl2]
      obtain ⟨w0, hw0⟩ := Option.isSome_iff_exists.mp hsome
      refine applyPositions_stable off pos ows' _ w.wid p
        (applyWindowGeometry off p w0) hp ?_ (geometryApplied_apply off p w0)
      rw [lookup_updateWindow, if_pos hk.symm, hw0]
      rfl
    · have hw' : w ∈ ows' := by
        rcases List.mem_cons.mp hw with h | h
        · exact absurd (by rw [h] : w2.wid = w.wid) hk
        · exact h
      cases hl2 : List.lookup w2.wid pos with
      | none =>
        simp only [hl2]
        exact ih m0 w p hw' hp hsome
      | some p2 =>
        simp only [hl2]
        refine ih _ w p hw' hp ?_
        rw [lookup_updateWindow, if_neg (fun hc => hk hc.symm)]
        exact hsome

theorem calculate_ok_lookup_isSome :
    ∀ (ws : List Window) (layout : TilingLayout) (cs : Size) (gap : Int) (m : PosMap),
      layout ≠ .floating →
      calculate_tiling_positions ws layout cs gap = .ok m →
      ∀ w ∈ ws, (List.lookup w.wid m).isSome := by
  intro ws layout cs gap m hl h w hw
  have hwid : w.wid ∈ ws.map Window.wid := List.mem_map_of_mem _ hw
  by_cases hws : ws = []
  · subst hws
    exact absurd hw (List.not_mem_nil w)
  · simp only [calculate_tiling_positions, if_neg hws, if_neg hl] at h
    split at h
    · exact absurd h (by simp)
    split at h
    · exact absurd h (by simp)
    next hgap =>
    push_neg at hgap
    cases hpre : preValidate ws layout cs gap with
    | some e => rw [hpre] at h; exact absurd h (by simp)
    | none =>
      rw [hpre] at h
      have hcount : (m.map Prod.fst).count w.wid = 1 := by
        cases layout with
        | floating => exact absurd rfl hl
        | horizontal_split => exact (hsplit_props ws cs gap m hgap h).1 w.wid hwid
        | vertical_split => exact (vsplit_props ws cs gap m hgap h).1 w.wid hwid
        | grid => exact (grid_props ws cs gap m hgap h).1 w.wid hwid
        | master_detail => exact (masterDetail_props ws cs gap m hgap hpre h).1 w.wid hwid
      have hmem : w.wid ∈ m.map Prod.fst := by
        by_contra hc
        rw [List.count_eq_zero_of_not_mem hc] at hcount
        exact absurd hcount (by norm_num)
      exact mem_keys_lookup_isSome m w.wid hmem

/-- C4: `_retile_all_windows` is a no-op in floating mode or with no open
windows; on a calculator failure it absorbs the error, flips the stored
layout to floating and applies no geometry; on success it keeps the layout
and applies the computed position (shifted by the container offset) and size
to every open window.  The dict hypothesis `∀ kv ∈ s.windows, kv.2.wid =
kv.1` records the Python-dict fact that every window is stored under its own
id. -/
theorem retile_all_windows_spec :
    ∀ (s : ManagerState),
      (s.tiling_layout = .floating → retileAllWindows s = s) ∧
      (openWindowsInOrder s = [] → retileAllWindows s = s) ∧
      (∀ e, s.tiling_layout ≠ .floating → openWindowsInOrder s ≠ [] →
        calculate_tiling_positions (openWindowsInOrder s) s.tiling_layout
          s.container_size s.window_gap = .error e →
        retileAllWindows s = { s with tiling_layout := .floating }) ∧
      (∀ m, s.tiling_layout ≠ .floating → openWindowsInOrder s ≠ [] →
        (∀ kv ∈ s.windows, (kv.2).wid = kv.1) →
        calculate_tiling_positions (openWindowsInOrder s) s.tiling_layout
          s.container_size s.window_gap = .ok m →
        (retileAllWindows s).tiling_layout = s.tiling_layout ∧
        ∀ w ∈ openWindowsInOrder s, ∃ p w',
          List.lookup w.wid m = some p ∧
          List.lookup w.wid (retileAllWindows s).windows = some w' ∧
          GeometryApplied s.container_offset p w') := by
  intro s
  refine ⟨?_, ?_, ?_, ?_⟩
  · intro hf
    simp [retileAllWindows, hf]
  · intro ho
    by_cases hf : s.tiling_layout = .floating
    · simp [retileAllWindows, hf]
    · simp [retileAllWindows, hf, ho]
  · intro e hl ho hcalc
    simp only [retileAllWindows, if_neg hl, if_neg ho, hcalc]
  · intro m hl ho hwf hcalc
    constructor
    · simp only [retileAllWindows, if_neg hl, if_neg ho, hcalc]
    · intro w hw
      have hp := calculate_ok_lookup_isSome (openWindowsInOrder s) s.tiling_layout
        s.container_size s.window_gap m hl hcalc w hw
      obtain ⟨p, hp⟩ := Option.isSome_iff_exists.mp hp
      have hwlookup : (List.lookup w.wid s.windows).isSome := by
        obtain ⟨wid0, hwid0⟩ := List.mem_filterMap.mp hw
        cases hlk : List.lookup wid0 s.windows with
        | none => rw [hlk] at hwid0; exact absurd hwid0.2 (by simp)
        | some w0 =>
          rw [hlk] at hwid0
          have hw0 : w0 = w := by
            rcases hwid0 with ⟨_, hval⟩
            by_cases hop : w0.open_state
            · simpa [hop] using hval
            · simp [hop] at hval
          have hkey : w0.wid = wid0 := hwf (wid0, w0) (lookup_mem _ _ _ hlk)
          rw [← hw0, hkey, hlk]
          rfl
      obtain ⟨w', hw', hg⟩ := applyPositions_mem s.container_offset m
        (openWindowsInOrder s) s.windows w p hw hp hwlookup
      refine ⟨p, w', hp, ?_, hg⟩
      simp only [retileAllWindows, if_neg hl, if_neg ho, hcalc]
      exact hw'

/-- The manager state used by the C4 witness: two open windows, horizontal
split, container (100, 40). -/
def retileWitnessState : ManagerState :=
  { windows := [("a", sampleWindow "a" true), ("b", sampleWindow "b" true)]
    window_order := ["a", "b"]
    tiling_layout := .horizontal_split
    window_gap := 0
    last_focused := none
    container_size := ⟨100, 40⟩
    container_offset := ⟨0, 0⟩ }

/-- Witness for C4 at a concrete input: after a successful retile the layout
is unchanged, and direct evaluation shows window "a" got the computed
geometry. -/
theorem retile_all_windows_spec_witness :
    (retileAllWindows retileWitnessState).tiling_layout =
      TilingLayout.horizontal_split ∧
    List.lookup "a" (retileAllWindows retileWitnessState).windows =
      some ⟨"a", true, ⟨0, 0⟩, 50, 40, 50, 40⟩ :=
  ⟨((retile_all_windows_spec retileWitnessState).2.2.2
      [("a", (⟨0, 0⟩, ⟨50, 40⟩)), ("b", (⟨50, 0⟩, ⟨50, 40⟩))]
      (by decide) (by decide) (by decide) (by decide)).1,
   by decide⟩

theorem pyInsert_eraseIdx_get {α : Type} :
    ∀ (l : List α) (i : Nat) (h : i < l.length),
      pyInsert (l.eraseIdx i) i (l.get ⟨i, h⟩) = l := by
  intro l
  induction l with
  | nil => intro i h; simp at h
  | cons a l' ih =>
    intro i h
    rcases i with _ | j
    · simp [List.eraseIdx, pyInsert]
    · have hj : j < l'.length := Nat.lt_of_succ_lt_succ h
      show a :: pyInsert (l'.eraseIdx j) j (l'.get ⟨j, hj⟩) = a :: l'
      rw [ih j hj]

/-- The manager state used by the C2 counterexample and witness: three open
windows in order a, b, c with b last-focused, horizontal split. -/
def moveWitnessState : ManagerState :=
  { windows := [("a", sampleWindow "a" true), ("b", sampleWindow "b" true),
                ("c", sampleWindow "c" true)]
    window_order := ["a", "b", "c"]
    tiling_layout := .horizontal_split
    window_gap := 0
    last_focused := some "b"
    container_size := ⟨100, 40⟩
    container_offset := ⟨0, 0⟩ }

/-- Counterexample to C2 as stated: with open order [a, b, c] and b
last-focused, `move_focused_window_next` leaves the tiling order unchanged
([a, b, c]) instead of producing [a, c, b]: the code reinserts the popped
window at `current_index % len(open_windows)` computed after the pop, which
equals the original index for every non-last window. -/
theorem move_focused_window_next_middle_noop :
    (moveFocusedWindowNext moveWitnessState).window_order = ["a", "b", "c"] ∧
    (["a", "b", "c"] : List String) ≠ ["a", "c", "b"] := by
  refine ⟨by decide, by decide⟩

/-- C2 (amended): `move_focused_window_next` is a no-op without a
last-focused window, in floating mode, or with fewer than 2 open windows
(also when the focused window is not among the open windows); otherwise it
pops the focused window at index `i` of the `n` open windows (tiling order)
and reinserts it at `i % (n-1)`, so the order is unchanged unless the window
was last, in which case it moves to the front; it then retiles with that
order. -/
theorem move_focused_window_next_spec :
    ∀ (s : ManagerState),
      (s.last_focused = none → moveFocusedWindowNext s = s) ∧
      (s.tiling_layout = .floating → moveFocusedWindowNext s = s) ∧
      ((openWindowsInOrder s).length ≤ 1 → moveFocusedWindowNext s = s) ∧
      (∀ lf, s.last_focused = some lf → s.tiling_layout ≠ .floating →
        2 ≤ (openWindowsInOrder s).length →
        ¬((openWindowsInOrder s).findIdx (fun w => w.wid == lf) <
            (openWindowsInOrder s).length) →
        moveFocusedWindowNext s = s) ∧
      (∀ lf (i : Nat), s.last_focused = some lf → s.tiling_layout ≠ .floating →
        2 ≤ (openWindowsInOrder s).length →
        (openWindowsInOrder s).findIdx (fun w => w.wid == lf) = i →
        ∀ (hi : i < (openWindowsInOrder s).length),
        moveFocusedWindowNext s =
          retileWindowsWithOrder s
            (if i = (openWindowsInOrder s).length - 1
             then (openWindowsInOrder s).get ⟨i, hi⟩ ::
                    (openWindowsInOrder s).eraseIdx i
             else openWindowsInOrder s)) := by
  intro s
  refine ⟨?_, ?_, ?_, ?_, ?_⟩
  · intro h
    simp [moveFocusedWindowNext, h]
  · intro h
    cases hlf : s.last_focused with
    | none => simp [moveFocusedWindowNext, hlf]
    | some lf => simp [moveFocusedWindowNext, hlf, h]
  · intro h
    cases hlf : s.last_focused with
    | none => simp [moveFocusedWindowNext, hlf]
    | some lf =>
      by_cases hf : s.tiling_layout = .floating
      · simp [moveFocusedWindowNext, hlf, hf]
      · simp [moveFocusedWindowNext, hlf, hf, h]
  · intro lf hlf hl h2 hnot
    have hn1 : ¬((openWindowsInOrder s).length ≤ 1) := by omega
    simp only [moveFocusedWindowNext, hlf]
    rw [if_neg hl, if_neg hn1, dif_neg hnot]
  · intro lf i hlf hl h2 hfind hi
    subst hfind
    have hn1 : ¬((openWindowsInOrder s).length ≤ 1) := by omega
    simp only [moveFocusedWindowNext, hlf]
    rw [if_neg hl, if_neg hn1, dif_pos hi]
    refine congrArg (retileWindowsWithOrder s) ?_
    have hlen : ((openWindowsInOrder s).eraseIdx
        ((openWindowsInOrder s).findIdx (fun w => w.wid == lf))).length =
        (openWindowsInOrder s).length - 1 := by
      rw [List.length_eraseIdx]
      simp [hi]
    by_cases hlast : (openWindowsInOrder s).findIdx (fun w => w.wid == lf) =
        (openWindowsInOrder s).length - 1
    · rw [if_pos hlast, hlen]
      rw [show (openWindowsInOrder s).findIdx (fun w => w.wid == lf) %
          ((openWindowsInOrder s).length - 1) = 0 from by
        rw [hlast]; exact Nat.mod_self _]
      simp [pyInsert]
    · rw [if_neg hlast]
      have hilt : (openWindowsInOrder s).findIdx (fun w => w.wid == lf) <
          (openWindowsInOrder s).length - 1 := by omega
      rw [hlen, Nat.mod_eq_of_lt hilt]
      exact pyInsert_eraseIdx_get (openWindowsInOrder s) _ hi

/-- Witness for the amended C2 at a concrete input: with b focused in the
middle of [a, b, c], the call retiles with the unchanged open order. -/
theorem move_focused_window_next_spec_witness :
    moveFocusedWindowNext moveWitnessState =
      retileWindowsWithOrder moveWitnessState (openWindowsInOrder moveWitnessState) := by
  have h := (move_focused_window_next_spec moveWitnessState).2.2.2.2 "b" 1
    (by decide) (by decide) (by decide) (by decide) (by decide)
  rw [if_neg (by decide :
    ¬((1 : Nat) = (openWindowsInOrder moveWitnessState).length - 1))] at h
  exact h

/-! ### Registry dict removal lemmas -/

theorem mem_dremove {α : Type} (m : List (String × α)) (k : String) :
    ∀ e ∈ dremove m k, e ∈ m := by
  induction m with
  | nil => intro e he; simp [dremove] at he
  | cons kv rest ih =>
    obtain ⟨k0, v0⟩ := kv
    intro e he
    by_cases h0 : k0 = k
    · rw [show dremove ((k0, v0) :: rest) k = rest from by simp [dremove, h0]] at he
      exact List.mem_cons_of_mem _ he
    · rw [show dremove ((k0, v0) :: rest) k = (k0, v0) :: dremove rest k from by
        simp [dremove, h0]] at he
      rcases List.mem_cons.mp he with h | h
      · exact h ▸ List.mem_cons_self _ _
      · exact List.mem_cons_of_mem _ (ih e h)

theorem mem_dremove_of_ne {α : Type} (m : List (String × α)) (k : String) :
    ∀ e ∈ m, e.1 ≠ k → e ∈ dremove m k := by
  induction m with
  | nil => intro e he; exact absurd he (List.not_mem_nil e)
  | cons kv rest ih =>
    obtain ⟨k0, v0⟩ := kv
    intro e he hne
    by_cases h0 : k0 = k
    · rw [show dremove ((k0, v0) :: rest) k = rest from by simp [dremove, h0]]
      rcases List.mem_cons.mp he with h | h
      · exact absurd (by rw [h, h0] : e.1 = k) hne
      · exact h
    · rw [show dremove ((k0, v0) :: rest) k = (k0, v0) :: dremove rest k from by
        simp [dremove, h0]]
      rcases List.mem_cons.mp he with h | h
      · exact h ▸ List.mem_cons_self _ _
      · exact List.mem_cons_of_mem _ (ih e h hne)

theorem key_ne_of_mem_dremove {α : Type} (m : List (String × α)) (k : String)
    (hnd : (m.map Prod.fst).Nodup) :
    ∀ e ∈ dremove m k, e.1 ≠ k := by
  induction m with
  | nil => intro e he; simp [dremove] at he
  | cons kv rest ih =>
    obtain ⟨k0, v0⟩ := kv
    simp only [List.map_cons, List.nodup_cons] at hnd
    intro e he
    by_cases h0 : k0 = k
    · rw [show dremove ((k0, v0) :: rest) k = rest from by simp [dremove, h0]] at he
      intro hc
      exact hnd.1 (h0 ▸ hc ▸ List.mem_map_of_mem Prod.fst he)
    · rw [show dremove ((k0, v0) :: rest) k = (k0, v0) :: dremove rest k from by
        simp [dremove, h0]] at he
      rcases List.mem_cons.mp he with h | h
      · rw [h]
        exact h0
      · exact ih hnd.2 e h

theorem nodup_keys_dremove {α : Type} (m : List (String × α)) (k : String)
    (hnd : (m.map Prod.fst).Nodup) : ((dremove m k).map Prod.fst).Nodup := by
  induction m with
  | nil => simp [dremove]
  | cons kv rest ih =>
    obtain ⟨k0, v0⟩ := kv
    simp only [List.map_cons, List.nodup_cons] at hnd
    by_cases h0 : k0 = k
    · rw [show dremove ((k0, v0) :: rest) k = rest from by simp [dremove, h0]]
      exact hnd.2
    · rw [show dremove ((k0, v0) :: rest) k = (k0, v0) :: dremove rest k from by
        simp [dremove, h0]]
      simp only [List.map_cons, List.nodup_cons]
      refine ⟨?_, ih hnd.2⟩
      intro hc
      obtain ⟨e, he, hev⟩ := List.mem_map.mp hc
      exact hnd.1 (hev ▸ List.mem_map_of_mem Prod.fst (mem_dremove rest k e he))

theorem entry_unique_of_lookup {α : Type} (m : List (String × α)) (k : String) (v : α)
    (hnd : (m.map Prod.fst).Nodup) (hlk : List.lookup k m = some v) :
    ∀ e ∈ m, e.1 = k → e = (k, v) := by
  induction m with
  | nil => simp [List.lookup] at hlk
  | cons kv rest ih =>
    obtain ⟨k0, v0⟩ := kv
    simp only [List.map_cons, List.nodup_cons] at hnd
    intro e he hek
    by_cases hb : k = k0
    · have hbt : (k == k0) = true := beq_iff_eq.mpr hb
      simp only [List.lookup, hbt] at hlk
      injection hlk with hv
      rcases List.mem_cons.mp he with h | h
      · rw [h, hb, hv]
      · exact absurd (hek ▸ List.mem_map_of_mem Prod.fst h) (hb ▸ hnd.1)
    · have hbf : (k == k0) = false := beq_eq_false_iff_ne.mpr hb
      simp only [List.lookup, hbf] at hlk
      rcases List.mem_cons.mp he with h | h
      · rw [h] at hek
        exact absurd hek (fun hc => hb hc.symm)
      · exact ih hnd.2 hlk e h hek

/-- Every valid registration/focus operation preserves the registry/focus
invariant. -/
theorem reg_invariant_step :
    ∀ (s : RegState) (op : RegOp), RegInv s → validRegOp s op →
      RegInv (applyRegOp s op) := by
  intro s op hinv hv
  obtain ⟨hnd, hfv, hvf, hwid, hknd⟩ := hinv
  cases op with
  | reg w =>
    obtain ⟨hne, hlk⟩ := hv
    have hkey : w.wid ∉ s.windows.map Prod.fst := by
      intro hmem
      have hs := mem_keys_lookup_isSome s.windows w.wid hmem
      rw [hlk] at hs
      exact absurd hs (by simp)
    have happ : dinsert s.windows w.wid w = s.windows ++ [(w.wid, w)] :=
      dinsert_eq_append _ _ _ hkey
    have hwnotin : w ∉ s.windows.map Prod.snd := by
      intro hmem
      obtain ⟨e, he, hev⟩ := List.mem_map.mp hmem
      have h1 : e.2.wid = e.1 := hwid e he
      rw [hev] at h1
      refine hkey ?_
      rw [h1]
      exact List.mem_map_of_mem Prod.fst he
    have hwnotfocus : w ∉ s.recent_focus_order := fun hc => hwnotin (hfv w hc)
    simp only [applyRegOp, registerWindow, if_pos hne]
    refine ⟨?_, ?_, ?_, ?_, ?_⟩
    · rw [List.nodup_append]
      refine ⟨hnd, List.nodup_singleton w, ?_⟩
      intro a ha hb
      rw [List.mem_singleton] at hb
      subst hb
      exact hwnotfocus ha
    · intro v hvm
      rw [List.mem_append] at hvm
      rw [happ, List.map_append, List.mem_append]
      rcases hvm with hvm | hvm
      · exact Or.inl (hfv v hvm)
      · rw [List.mem_singleton] at hvm
        subst hvm
        exact Or.inr (by simp)
    · intro v hvm
      rw [happ, List.map_append, List.mem_append] at hvm
      rw [List.mem_append]
      rcases hvm with hvm | hvm
      · exact Or.inl (hvf v hvm)
      · simp only [List.map_cons, List.map_nil, List.mem_singleton] at hvm
        subst hvm
        exact Or.inr (by simp)
    · intro kv hkv
      rcases mem_dinsert _ _ _ kv hkv with h | h
      · exact hwid kv h
      · rw [h]
    · exact nodup_keys_dinsert _ _ _ hknd
  | unreg w =>
    have hwin : (w.wid, w) ∈ s.windows := lookup_mem _ _ _ hv
    have hwfocus : w ∈ s.recent_focus_order :=
      hvf w (List.mem_map_of_mem Prod.snd hwin)
    have hvs : (List.lookup w.wid s.windows).isSome := by
      rw [hv]
      rfl
    simp only [applyRegOp, unregisterWindow, if_pos hvs]
    refine ⟨?_, ?_, ?_, ?_, ?_⟩
    · exact hnd.erase w
    · intro v hvm
      obtain ⟨hvw, hvfoc⟩ := (List.Nodup.mem_erase_iff hnd).mp hvm
      obtain ⟨e, he, hev⟩ := List.mem_map.mp (hfv v hvfoc)
      have hek : e.1 ≠ w.wid := by
        intro hc
        have := entry_unique_of_lookup s.windows w.wid w hknd hv e he hc
        rw [this] at hev
        exact hvw hev.symm
      exact hev ▸ List.mem_map_of_mem Prod.snd (mem_dremove_of_ne s.windows w.wid e he hek)
    · intro v hvm
      obtain ⟨e, he, hev⟩ := List.mem_map.mp hvm
      have hem : e ∈ s.windows := mem_dremove s.windows w.wid e he
      have hvw : v ≠ w := by
        intro hc
        have h1 : e.2.wid = e.1 := hwid e hem
        rw [hev, hc] at h1
        exact key_ne_of_mem_dremove s.windows w.wid hknd e he h1.symm
      exact (List.Nodup.mem_erase_iff hnd).mpr
        ⟨hvw, hvf v (hev ▸ List.mem_map_of_mem Prod.snd hem)⟩
    · intro kv hkv
      exact hwid kv (mem_dremove s.windows w.wid kv hkv)
    · exact nodup_keys_dremove s.windows w.wid hknd
  | focus w =>
    have hwfocus : w ∈ s.recent_focus_order := hvf w hv
    have hne : s.recent_focus_order ≠ [] := by
      intro hc
      rw [hc] at hwfocus
      exact absurd hwfocus (List.not_mem_nil w)
    simp only [applyRegOp, changeWindowFocusOrder, if_pos hne]
    refine ⟨?_, ?_, ?_, ?_, ?_⟩
    · rw [List.nodup_cons]
      refine ⟨?_, hnd.erase w⟩
      intro hc
      exact ((List.Nodup.mem_erase_iff hnd).mp hc).1 rfl
    · intro v hvm
      rcases List.mem_cons.mp hvm with h | h
      · exact h ▸ hv
      · exact hfv v ((List.Nodup.mem_erase_iff hnd).mp h).2
    · intro v hvm
      by_cases hvw : v = w
      · exact hvw ▸ List.mem_cons_self _ _
      · exact List.mem_cons_of_mem _
          ((List.Nodup.mem_erase_iff hnd).mpr ⟨hvw, hvf v hvm⟩)
    · exact hwid
    · exact hknd

/-- The invariant is preserved along every valid operation sequence. -/
theorem reg_invariant_seq :
    ∀ (ops : List RegOp) (s : RegState), RegInv s → ValidRegSeq s ops →
      RegInv (applyRegSeq s ops) := by
  intro ops
  induction ops with
  | nil => intro s h _; exact h
  | cons op rest ih =>
    intro s h hseq
    exact ih _ (reg_invariant_step s op h hseq.1) hseq.2

/-- Counterexample to C8 as stated: registering the same window twice (the
second call raises nothing — `register_window` has no already-registered
guard) leaves the registry with one entry but appends the window to the
focus-recency list a second time, so a registered window appears twice. -/
theorem register_twice_duplicates_focus :
    (applyRegSeq initRegState
      [RegOp.reg ⟨0, "a"⟩, RegOp.reg ⟨0, "a"⟩]).recent_focus_order.count ⟨0, "a"⟩ = 2 ∧
    (⟨0, "a"⟩ : FWindow) ∈ (applyRegSeq initRegState
      [RegOp.reg ⟨0, "a"⟩, RegOp.reg ⟨0, "a"⟩]).windows.map Prod.snd := by
  refine ⟨by decide, by decide⟩

/-- C8 (amended): starting from a state satisfying the registry/focus
invariant (e.g. the empty start-up state), after every sequence of
operations in which each `register_window` targets a window with a nonempty
identifier not currently registered, each `unregister_window` targets the
window object registered under its id, and each `change_window_focus_order`
targets a registered window, the focus-recency list contains exactly the
currently-registered windows: each registered window appears exactly once
and no unregistered window appears. -/
theorem focus_order_invariant :
    ∀ (ops : List RegOp) (s : RegState), RegInv s → ValidRegSeq s ops →
      ∀ w, (applyRegSeq s ops).recent_focus_order.count w =
        if w ∈ (applyRegSeq s ops).windows.map Prod.snd then 1 else 0 := by
  intro ops s hinv hseq w
  obtain ⟨hnd, hfv, hvf, _, _⟩ := reg_invariant_seq ops s hinv hseq
  by_cases hm : w ∈ (applyRegSeq s ops).windows.map Prod.snd
  · rw [if_pos hm]
    exact List.count_eq_one_of_mem hnd (hvf w hm)
  · rw [if_neg hm]
    exact List.count_eq_zero_of_not_mem (fun hc => hm (hfv w hc))

/-- Witness for the amended C8 at a concrete input: register a and b, focus
a, unregister b — window b then has no focus-list entry and is not
registered. -/
theorem focus_order_invariant_witness :
    RegInv initRegState ∧
    ValidRegSeq initRegState [RegOp.reg ⟨0, "a"⟩, RegOp.reg ⟨1, "b"⟩,
      RegOp.focus ⟨0, "a"⟩, RegOp.unreg ⟨1, "b"⟩] ∧
    (applyRegSeq initRegState [RegOp.reg ⟨0, "a"⟩, RegOp.reg ⟨1, "b"⟩,
        RegOp.focus ⟨0, "a"⟩, RegOp.unreg ⟨1, "b"⟩]).recent_focus_order.count ⟨1, "b"⟩ =
      if (⟨1, "b"⟩ : FWindow) ∈ (applyRegSeq initRegState
          [RegOp.reg ⟨0, "a"⟩, RegOp.reg ⟨1, "b"⟩,
           RegOp.focus ⟨0, "a"⟩, RegOp.unreg ⟨1, "b"⟩]).windows.map Prod.snd
      then 1 else 0 :=
  ⟨by decide, by decide,
    focus_order_invariant [RegOp.reg ⟨0, "a"⟩, RegOp.reg ⟨1, "b"⟩,
      RegOp.focus ⟨0, "a"⟩, RegOp.unreg ⟨1, "b"⟩] initRegState
      (by decide) (by decide) ⟨1, "b"⟩⟩

end TextualWindow
